import Mathlib

/-!
Verification of the conference-history backfill of `import_team_history.py`
(StatGuy repository).

The script fetches, for each season 1925..2025, the list of team snapshots
reported by an external API, then

* `build_conference_history` walks the seasons backwards (2025 down to 1925),
  groups the snapshot entries of a season by `sourceId`, and inserts one
  conference-history record per team-season, resolving teams that appear with
  several conferences in one season by scanning forward for the "eventual"
  conference (`find_eventual_conference`);
* `fill_gap_years` inserts `existed = false` placeholder records for seasons
  inside a team's active range in which it does not appear in any snapshot;
* the database table enforces a uniqueness constraint on `(team_id, season)`,
  so an insert for an already-present key fails (the script catches and logs
  the failure, leaving the table unchanged).

This file is a shallow embedding of that logic.  Machine-level details that
the claims do not touch (HTTP, the supabase client, phase 0/2 upserts, the
read-only validation phase) are not modelled; database effects are modelled
as a list of records together with the uniqueness constraint, and Python
exceptions that escape all `try` blocks are modelled with `Except`.
-/

namespace StatGuy

/-- One snapshot entry as returned by the `/teams` endpoint for a season.
Mirrors the fields the script reads: `team.get('sourceId')` and
`team.get('conferenceId')`, both of which may be absent (`None`). -/
structure TeamEntry where
  sourceId : Option String
  conferenceId : Option Int
deriving DecidableEq, Repr

/-- A row of the `team_conference_history` table, as built by the script:
`{'team_id': .., 'season': .., 'conference_id': .., 'existed': ..}`. -/
structure HistoryRecord where
  team_id : Nat
  season : Nat
  conference_id : Option Int
  existed : Bool
deriving DecidableEq, Repr

/-- The warnings `build_conference_history` can log (`logger.warning`). -/
inductive LogEvent where
  /-- "No team_id found for source_id {source_id} in season {season}" -/
  | warnNoTeamId (source_id : String) (season : Nat)
  /-- "Team {source_id} in {season} - no eventual single conference. Using first conference." -/
  | warnNoEventual (source_id : String) (season : Nat)
  /-- "Team {source_id} in {season} - all conferences match eventual (...)" -/
  | warnAllMatch (source_id : String) (season : Nat)
deriving DecidableEq, Repr

/-- `all_seasons_data`: the season -> snapshot-list dictionary, as an
association list (seasons are inserted at most once, in ascending order). -/
abbrev SeasonsData := List (Nat × List TeamEntry)

/-- `team_id_map`: the source_id -> team_id dictionary built by
`get_team_id_map`, as an association list. -/
abbrev TeamIdMap := List (String × Nat)

/-- Dictionary lookup `all_seasons_data.get(season)` / `season in all_seasons_data`. -/
def lookupSeason : SeasonsData → Nat → Option (List TeamEntry)
  | [], _ => none
  | (k, v) :: rest, s => if k = s then some v else lookupSeason rest s

/-- Dictionary lookup `team_id_map.get(source_id)`. -/
def lookupMap : TeamIdMap → String → Option Nat
  | [], _ => none
  | (k, v) :: rest, s => if k = s then some v else lookupMap rest s

/-- The seasons `range(1925, 2026)` in ascending order. -/
def seasonRange : List Nat := (List.range 101).map (fun i => 1925 + i)

/-- The seasons `range(2025, 1924, -1)` in descending order (the order in
which `build_conference_history` processes them). -/
def seasonsDesc : List Nat := (List.range 101).map (fun i => 2025 - i)

/-- The seasons `range(start_season + 1, 2026)` scanned by
`find_eventual_conference`. -/
def futureRange (start_season : Nat) : List Nat :=
  (List.range (2025 - start_season)).map (fun i => start_season + 1 + i)

/-- The seasons `range(first_season, last_season + 1)` walked by the gap filler. -/
def gapRange (first_season last_season : Nat) : List Nat :=
  (List.range (last_season + 1 - first_season)).map (fun i => first_season + i)

/-- The snapshot entries of `sid` in season `s`:
`[t for t in all_seasons_data[s] if t.get('sourceId') == sid]`
(empty when the season has no data). -/
def entriesOf (d : SeasonsData) (s : Nat) (sid : String) : List TeamEntry :=
  match lookupSeason d s with
  | none => []
  | some ts => ts.filter (fun t => decide (t.sourceId = some sid))

/-- `fill_gap_years`' appearance test for one season:
`season in all_seasons_data and any(t.get('sourceId') == source_id for t in all_seasons_data[season])`. -/
def appearsIn (d : SeasonsData) (sid : String) (s : Nat) : Bool :=
  match lookupSeason d s with
  | none => false
  | some ts => ts.any (fun t => decide (t.sourceId = some sid))

/-- `seasons_appeared` of a team: all seasons of `range(1925, 2026)` in which
the team appears in the snapshot data. -/
def seasonsAppeared (d : SeasonsData) (sid : String) : List Nat :=
  seasonRange.filter (fun s => appearsIn d sid s)

/-- `first_season = min(seasons_appeared)` (0 when the team never appears;
the script `continue`s in that case). -/
def firstSeason (d : SeasonsData) (sid : String) : Nat :=
  match seasonsAppeared d sid with
  | [] => 0
  | a :: rest => rest.foldl Nat.min a

/-- `last_season = max(seasons_appeared)` (0 when the team never appears). -/
def lastSeason (d : SeasonsData) (sid : String) : Nat :=
  match seasonsAppeared d sid with
  | [] => 0
  | a :: rest => rest.foldl Nat.max a

/-- Append entry `t` to the bucket of key `s`, or create a new bucket at the
end — the effect of `teams_by_source[source_id].append(team)` on a
`defaultdict(list)`, which keeps buckets in first-occurrence order. -/
def insertGroup : List (String × List TeamEntry) → String → TeamEntry → List (String × List TeamEntry)
  | [], s, t => [(s, [t])]
  | (k, l) :: rest, s, t =>
    if k = s then (k, l ++ [t]) :: rest else (k, l) :: insertGroup rest s t

/-- One entry of the grouping loop: skip entries whose `sourceId` is falsy
(`None` or the empty string), append the rest to their bucket. -/
def groupAccStep (acc : List (String × List TeamEntry)) (t : TeamEntry) :
    List (String × List TeamEntry) :=
  match t.sourceId with
  | none => acc
  | some s => if s = "" then acc else insertGroup acc s t

/-- Group a season's snapshot entries by `sourceId`, exactly as the
`if source_id: teams_by_source[source_id].append(team)` loop does. -/
def groupBySource (teams : List TeamEntry) : List (String × List TeamEntry) :=
  teams.foldl groupAccStep []

/-- Bucket lookup in a grouped list. -/
def bucketOf : List (String × List TeamEntry) → String → Option (List TeamEntry)
  | [], _ => none
  | (k, v) :: rest, s => if k = s then some v else bucketOf rest s

/-- The body of `find_eventual_conference`'s loop over the future seasons:
skip seasons with no data; in a season with data, return the single entry's
`conferenceId` if the team appears exactly once, return `none` if it does not
appear at all ("defunct case"), and keep scanning if it appears two or more
times.  `none` after the list is exhausted ("no single conference found"). -/
def findEventualGo (sid : String) (d : SeasonsData) : List Nat → Option Int
  | [] => none
  | s :: rest =>
    match lookupSeason d s with
    | none => findEventualGo sid d rest
    | some ts =>
      match ts.filter (fun t => decide (t.sourceId = some sid)) with
      | [t] => t.conferenceId
      | [] => none
      | _ :: _ :: _ => findEventualGo sid d rest

/-- `find_eventual_conference(team_source_id, start_season, all_seasons_data)`:
scan `range(start_season + 1, 2026)`. -/
def find_eventual_conference (sid : String) (start_season : Nat) (d : SeasonsData) : Option Int :=
  findEventualGo sid d (futureRange start_season)

/-- Characterization of the forward scan used by the amended claim C3:
among the future seasons that are present in the collected data, find the
first one in which the team has at most one entry; the scan yields that
entry's `conferenceId` when there is exactly one entry there and nothing
otherwise (team absent from that season, or no such season at all). -/
def findEventualSpec (sid : String) (start_season : Nat) (d : SeasonsData) : Option Int :=
  match ((futureRange start_season).filter (fun s => (lookupSeason d s).isSome)).find?
      (fun s => decide ((entriesOf d s sid).length ≤ 1)) with
  | none => none
  | some s =>
    match entriesOf d s sid with
    | [t] => t.conferenceId
    | _ => none

/-- `conferences_in_season.sort(); conference_id = conferences_in_season[0]`.
A Python sort of a list holding both `None` and ints (any list of length at
least two with a `None` in it) raises an uncaught `TypeError`; indexing an
empty list raises `IndexError`; otherwise the first element of the ascending
sort is the minimum. -/
def pySortedFirst (confs : List (Option Int)) : Except String (Option Int) :=
  if 2 ≤ confs.length ∧ confs.any (fun c => c.isNone) then
    .error "TypeError: '<' not supported between instances of 'NoneType' and 'int'"
  else
    match confs with
    | [] => .error "IndexError: list index out of range"
    | [c] => .ok c
    | _ :: _ :: _ =>
      match confs.filterMap id with
      | [] => .error "IndexError: list index out of range"
      | c :: cs => .ok (some (cs.foldl min c))

/-- The mutable state threaded through `build_conference_history`:
the insert attempts made so far (in order), the warnings logged so far, and
the `teams_without_id` set (as a duplicate-free list). -/
structure BuildState where
  records : List HistoryRecord
  events : List LogEvent
  noId : List String
deriving DecidableEq, Repr

/-- The `if not team_id:` branch: log the missing-mapping warning only on the
first occurrence of the source_id, record it in `teams_without_id`, skip. -/
def unmappedUpdate (st : BuildState) (sid : String) (season : Nat) : BuildState :=
  if st.noId.contains sid then st
  else { st with
          events := st.events ++ [.warnNoTeamId sid season]
          noId := st.noId ++ [sid] }

/-- A left fold in the `Except` monad: the loop body may raise, and a raised
exception aborts the remaining iterations (Python exception propagation). -/
def foldE (f : σ → α → Except String σ) : σ → List α → Except String σ
  | st, [] => .ok st
  | st, a :: l =>
    match f st a with
    | .error e => .error e
    | .ok st' => foldE f st' l

/-- Processing of one `(source_id, team_entries)` group of a season inside
`build_conference_history`:

* no (or falsy) `team_id` in the mapping: warn once per source_id and skip;
* exactly one entry: insert it with its `conferenceId`, `existed = True`;
* several entries: compute the eventual conference;
  * none found: warn, sort the reported `conferenceId`s (this sort is outside
    every `try` block and can raise), insert the smallest;
  * found: insert one record per reported `conferenceId` different from it,
    or warn and skip when every reported value equals it.

Insert attempts are recorded as emitted; the database-side uniqueness
constraint is applied separately (`applyInserts`). -/
def groupStep (map : TeamIdMap) (d : SeasonsData) (season : Nat)
    (st : BuildState) (g : String × List TeamEntry) : Except String BuildState :=
  let sid := g.1
  let entries := g.2
  match lookupMap map sid with
  | none => .ok (unmappedUpdate st sid season)
  | some tid =>
    if tid = 0 then .ok (unmappedUpdate st sid season)
    else
      match entries with
      | [t] =>
        .ok { st with records := st.records ++ [⟨tid, season, t.conferenceId, true⟩] }
      | _ =>
        let confs := entries.map (fun t => t.conferenceId)
        match find_eventual_conference sid season d with
        | none =>
          match pySortedFirst confs with
          | .error e => .error e
          | .ok c =>
            .ok { st with
                   records := st.records ++ [⟨tid, season, c, true⟩]
                   events := st.events ++ [.warnNoEventual sid season] }
        | some ev =>
          let correct := confs.filter (fun c => decide (c ≠ some ev))
          if correct.isEmpty then
            .ok { st with events := st.events ++ [.warnAllMatch sid season] }
          else
            .ok { st with
                   records := st.records ++ correct.map (fun c => ⟨tid, season, c, true⟩) }

/-- One iteration of the season loop of `build_conference_history`:
`continue` when the season has no data, otherwise process its groups. -/
def seasonStep (map : TeamIdMap) (d : SeasonsData)
    (st : BuildState) (season : Nat) : Except String BuildState :=
  match lookupSeason d season with
  | none => .ok st
  | some teams => foldE (groupStep map d season) st (groupBySource teams)

/-- `build_conference_history(all_seasons_data, team_id_map)`: the history
table is cleared first, then seasons are processed in descending order.  The
result is the sequence of insert attempts plus the log, or the uncaught
exception that aborted the pass. -/
def build_conference_history (d : SeasonsData) (map : TeamIdMap) : Except String BuildState :=
  foldE (seasonStep map d) ⟨[], [], []⟩ seasonsDesc

/-- Does record `r` have key `(tid, s)`? -/
def keyMatch (tid s : Nat) (r : HistoryRecord) : Bool :=
  decide (r.team_id = tid ∧ r.season = s)

/-- Does the table hold a record for `(tid, s)`? -/
def hasKey (db : List HistoryRecord) (tid s : Nat) : Bool :=
  db.any (keyMatch tid s)

/-- Number of records for `(tid, s)` in the table. -/
def countKey (db : List HistoryRecord) (tid s : Nat) : Nat :=
  db.countP (keyMatch tid s)

/-- One database insert under the `(team_id, season)` uniqueness constraint:
an insert for an existing key fails (the script catches and logs the error,
leaving the table unchanged). -/
def insertDB (db : List HistoryRecord) (r : HistoryRecord) : List HistoryRecord :=
  if hasKey db r.team_id r.season then db else db ++ [r]

/-- Apply a sequence of insert attempts to the table. -/
def applyInserts (db : List HistoryRecord) (rs : List HistoryRecord) : List HistoryRecord :=
  rs.foldl insertDB db

/-- `{v: k for k, v in team_id_map.items()}`: overwrite the value at an
existing key in place, otherwise append. -/
def setAssoc : List (Nat × String) → Nat → String → List (Nat × String)
  | [], k, v => [(k, v)]
  | (k', v') :: rest, k, v =>
    if k' = k then (k, v) :: rest else (k', v') :: setAssoc rest k v

/-- `id_to_source = {v: k for k, v in team_id_map.items()}`. -/
def idToSource (map : TeamIdMap) : List (Nat × String) :=
  map.foldl (fun acc kv => setAssoc acc kv.2 kv.1) []

/-- One iteration of the gap loop of `fill_gap_years`: skip seasons in which
the team appeared; otherwise insert the `existed = False` placeholder unless
a record for `(team_id, season)` already exists. -/
def fillSeasonStep (d : SeasonsData) (tid : Nat) (sid : String)
    (db : List HistoryRecord) (s : Nat) : List HistoryRecord :=
  if (seasonsAppeared d sid).contains s then db
  else if hasKey db tid s then db
  else db ++ [⟨tid, s, none, false⟩]

/-- The per-team body of `fill_gap_years`: `continue` if the team appears in
no season; otherwise walk `range(first_season, last_season + 1)`. -/
def fillTeam (d : SeasonsData) (tid : Nat) (sid : String)
    (db : List HistoryRecord) : List HistoryRecord :=
  match seasonsAppeared d sid with
  | [] => db
  | a :: rest =>
    (gapRange (rest.foldl Nat.min a) (rest.foldl Nat.max a)).foldl
      (fillSeasonStep d tid sid) db

/-- `fill_gap_years(all_seasons_data, team_id_map)`, acting on the history
table produced by the resolution pass. -/
def fill_gap_years (d : SeasonsData) (map : TeamIdMap)
    (db : List HistoryRecord) : List HistoryRecord :=
  (idToSource map).foldl (fun db p => fillTeam d p.1 p.2 db) db

/-- The event logged by a failed season fetch. -/
inductive FetchLog where
  | fetchError (season : Nat) (msg : String)
deriving DecidableEq, Repr

/-- `fetch_teams_for_season`: on failure, log the error and return `[]`. -/
def fetch_teams_for_season (fetch : Nat → Except String (List TeamEntry)) (s : Nat) :
    List TeamEntry × List FetchLog :=
  match fetch s with
  | .ok ts => (ts, [])
  | .error e => ([], [.fetchError s e])

/-- The state built by `collect_all_seasons_data`: the season dictionary, the
errors logged, and the seasons for which a fetch was issued (one entry per
fetch call, in order). -/
structure CollectState where
  data : SeasonsData
  logs : List FetchLog
  fetched : List Nat
deriving DecidableEq, Repr

/-- One iteration of the season loop of `collect_all_seasons_data`: fetch the
season (exactly one call) and keep the result only when the returned list is
non-empty (`if teams:`). -/
def collectStep (fetch : Nat → Except String (List TeamEntry))
    (st : CollectState) (s : Nat) : CollectState :=
  let fr := fetch_teams_for_season fetch s
  { data := if fr.1.isEmpty then st.data else st.data ++ [(s, fr.1)]
    logs := st.logs ++ fr.2
    fetched := st.fetched ++ [s] }

/-- `collect_all_seasons_data()`: loop over `range(1925, 2026)`.  (The
`all_teams_map` it also builds feeds only the phase-2 team upsert, which the
claims do not touch, and is not modelled.) -/
def collect_all_seasons_data (fetch : Nat → Except String (List TeamEntry)) : CollectState :=
  seasonRange.foldl (collectStep fetch) ⟨[], [], []⟩

/-- Is an `Except` value a success? -/
def exceptOkB : Except String α → Bool
  | .ok _ => true
  | .error _ => false

/-- The post-startup phases of `main` relevant to the claims: collect the
season data (phase 1), build the conference history (phase 3) and fill the
gap years (phase 4) against an initially cleared table.  An exception raised
inside phase 3 propagates out of `main` (which logs it and re-raises). -/
def runImport (fetch : Nat → Except String (List TeamEntry)) (map : TeamIdMap) :
    Except String (List HistoryRecord) :=
  let cs := collect_all_seasons_data fetch
  match build_conference_history cs.data map with
  | .error e => .error e
  | .ok st => .ok (fill_gap_years cs.data map (applyInserts [] st.records))

/-- The degenerate duplicate case that `build_conference_history` skips with
a warning: several entries in the season, an eventual conference is found,
and every reported `conferenceId` equals it. -/
def degenerateSkipB (d : SeasonsData) (sid : String) (s : Nat) : Bool :=
  decide (2 ≤ (entriesOf d s sid).length) &&
    match find_eventual_conference sid s d with
    | none => false
    | some ev =>
      ((entriesOf d s sid).map (fun t => t.conferenceId)).filter
        (fun c => decide (c ≠ some ev)) |>.isEmpty

/-- Well-formedness of the source_id -> team_id mapping as `get_team_id_map`
produces it from the `teams` table: source_ids are dictionary keys (distinct)
and team_ids are primary keys of distinct rows (distinct). -/
def mapWF (map : TeamIdMap) : Bool :=
  (map.map Prod.fst).Nodup && (map.map Prod.snd).Nodup

/-- At most one record per `(team_id, season)` key — the table's uniqueness
invariant. -/
def AtMostOne (db : List HistoryRecord) : Prop :=
  ∀ tid s, countKey db tid s ≤ 1

instance {ε α : Type} [DecidableEq ε] [DecidableEq α] : DecidableEq (Except ε α) := fun a b =>
  match a, b with
  | .ok x, .ok y =>
    if h : x = y then .isTrue (by rw [h]) else .isFalse (fun hc => h (Except.ok.inj hc))
  | .error x, .error y =>
    if h : x = y then .isTrue (by rw [h]) else .isFalse (fun hc => h (Except.error.inj hc))
  | .ok _, .error _ => .isFalse (fun hc => Except.noConfusion hc)
  | .error _, .ok _ => .isFalse (fun hc => Except.noConfusion hc)

/-- Does this log event report a missing team_id for `sid`? -/
def isNoTeamIdWarn (sid : String) : LogEvent → Bool
  | .warnNoTeamId s _ => decide (s = sid)
  | _ => false

/-! ### Concrete scenarios used by closed witnesses and counterexamples -/

/-- Degenerate scenario: team "T" reports conference 5 twice in 2024 and once
in 2025, so the 2024 duplicates all match the eventual conference. -/
def dDegen : SeasonsData :=
  [(2024, [⟨some "T", some 5⟩, ⟨some "T", some 5⟩]), (2025, [⟨some "T", some 5⟩])]

def mapDegen : TeamIdMap := [("T", 1)]

def stDegen : BuildState :=
  match build_conference_history dDegen mapDegen with
  | .ok st => st
  | .error _ => ⟨[], [], []⟩

/-- Gap scenario: team "W" appears in 2020 and 2022 only. -/
def dGap : SeasonsData :=
  [(2020, [⟨some "W", some 3⟩]), (2022, [⟨some "W", some 4⟩])]

def mapGap : TeamIdMap := [("W", 7)]

def stGap : BuildState :=
  match build_conference_history dGap mapGap with
  | .ok st => st
  | .error _ => ⟨[], [], []⟩

def dbGap : List HistoryRecord := applyInserts [] stGap.records

/-- Duplicate scenario: team "X" reports conferences 1 and 2 in 2024 and
conference 2 alone in 2025. -/
def dDup : SeasonsData :=
  [(2024, [⟨some "X", some 1⟩, ⟨some "X", some 2⟩]), (2025, [⟨some "X", some 2⟩])]

def mapDup : TeamIdMap := [("X", 4)]

def stDup : BuildState :=
  match build_conference_history dDup mapDup with
  | .ok st => st
  | .error _ => ⟨[], [], []⟩

/-- Fallback scenario: team "Y" reports conferences 9 and 4 in 2025 (no
future season to scan). -/
def dFall : SeasonsData := [(2025, [⟨some "Y", some 9⟩, ⟨some "Y", some 4⟩])]

def mapFall : TeamIdMap := [("Y", 2)]

def stFall : BuildState :=
  match build_conference_history dFall mapFall with
  | .ok st => st
  | .error _ => ⟨[], [], []⟩

/-- Sort-crash scenario: team "S" reports a missing conference id and
conference 3 in 2025, and never stabilizes. -/
def dSortCrash : SeasonsData := [(2025, [⟨some "S", none⟩, ⟨some "S", some 3⟩])]

def mapSortCrash : TeamIdMap := [("S", 2)]

/-- A fetch oracle in which every season's fetch succeeds but the 2025 data
contains the sort-crash duplicates. -/
def fetchCrash : Nat → Except String (List TeamEntry) := fun s =>
  if s = 2025 then .ok [⟨some "S", none⟩, ⟨some "S", some 3⟩] else .ok []

/-- A fetch oracle with one failing season (2000) and otherwise well-formed
data with no missing conference ids. -/
def fetchFine : Nat → Except String (List TeamEntry) := fun s =>
  if s = 2000 then .error "connection reset" else
  if s = 2024 then .ok [⟨some "A", some 10⟩, ⟨some "A", some 20⟩] else
  if s = 2025 then .ok [⟨some "A", some 20⟩] else .ok []

/-- Forward-scan scenario: team "T" duplicated in 2023, absent from the 2024
snapshot, back with a single conference (7) in 2025. -/
def dScan : SeasonsData :=
  [(2023, [⟨some "T", some 1⟩, ⟨some "T", some 2⟩]),
   (2024, [⟨some "U", some 1⟩]),
   (2025, [⟨some "T", some 7⟩])]

/-- Unmapped scenario: team "Z" appears in two seasons but has no entry in
the source_id -> team_id mapping. -/
def dUnmapped : SeasonsData :=
  [(2024, [⟨some "Z", some 1⟩]), (2025, [⟨some "Z", some 1⟩, ⟨some "A", some 2⟩])]

def mapUnmapped : TeamIdMap := [("A", 9)]

def stUnmapped : BuildState :=
  match build_conference_history dUnmapped mapUnmapped with
  | .ok st => st
  | .error _ => ⟨[], [], []⟩

/-! ### Basic lemmas: folds, ranges, the record table -/

theorem foldE_append {f : σ → α → Except String σ} {st st'' : σ} {l₁ l₂ : List α}
    (h : foldE f st (l₁ ++ l₂) = .ok st'') :
    ∃ stm, foldE f st l₁ = .ok stm ∧ foldE f stm l₂ = .ok st'' := by
  induction l₁ generalizing st with
  | nil => exact ⟨st, rfl, h⟩
  | cons a l ih =>
    rw [List.cons_append, foldE] at h
    rw [foldE]
    cases hfa : f st a with
    | error e => rw [hfa] at h; exact absurd h (by simp)
    | ok st' => rw [hfa] at h; exact ih h

theorem foldE_cons {f : σ → α → Except String σ} {st st'' : σ} {a : α} {l : List α}
    (h : foldE f st (a :: l) = .ok st'') :
    ∃ st', f st a = .ok st' ∧ foldE f st' l = .ok st'' := by
  rw [foldE] at h
  cases hfa : f st a with
  | error e => rw [hfa] at h; exact absurd h (by simp)
  | ok st' => rw [hfa] at h; exact ⟨st', rfl, h⟩

theorem foldE_pres {f : σ → α → Except String σ} {st st' : σ} {l : List α}
    (P : σ → Prop)
    (hf : ∀ s a s', a ∈ l → f s a = .ok s' → P s → P s')
    (h : foldE f st l = .ok st') (hP : P st) : P st' := by
  induction l generalizing st with
  | nil => rw [foldE] at h; cases h; exact hP
  | cons a l ih =>
    obtain ⟨stm, h1, h2⟩ := foldE_cons h
    exact ih (fun s b s' hb => hf s b s' (List.mem_cons_of_mem a hb)) h2
      (hf st a stm (List.mem_cons_self a l) h1 hP)

theorem foldE_ok {f : σ → α → Except String σ} {l : List α}
    (hf : ∀ s a, a ∈ l → ∃ s', f s a = .ok s') (st : σ) :
    ∃ st', foldE f st l = .ok st' := by
  induction l generalizing st with
  | nil => exact ⟨st, rfl⟩
  | cons a l ih =>
    obtain ⟨st1, h1⟩ := hf st a (List.mem_cons_self a l)
    obtain ⟨st', h2⟩ := ih (fun s b hb => hf s b (List.mem_cons_of_mem a hb)) st1
    exact ⟨st', by rw [foldE, h1]; exact h2⟩

theorem mem_seasonRange {s : Nat} : s ∈ seasonRange ↔ 1925 ≤ s ∧ s ≤ 2025 := by
  simp only [seasonRange, List.mem_map, List.mem_range]
  constructor
  · rintro ⟨i, hi, rfl⟩; omega
  · rintro ⟨h1, h2⟩; exact ⟨s - 1925, by omega, by omega⟩

theorem mem_seasonsDesc {s : Nat} : s ∈ seasonsDesc ↔ 1925 ≤ s ∧ s ≤ 2025 := by
  simp only [seasonsDesc, List.mem_map, List.mem_range]
  constructor
  · rintro ⟨i, hi, rfl⟩; omega
  · rintro ⟨h1, h2⟩; exact ⟨2025 - s, by omega, by omega⟩

theorem nodup_seasonsDesc : seasonsDesc.Nodup := by
  refine List.Nodup.map_on ?_ (List.nodup_range 101)
  intro x hx y hy hxy
  simp only [List.mem_range] at hx hy
  omega

theorem nodup_seasonRange : seasonRange.Nodup := by
  refine List.Nodup.map_on ?_ (List.nodup_range 101)
  intro x hx y hy hxy
  simp only [List.mem_range] at hx hy
  omega

theorem mem_gapRange {first_season last_season s : Nat} :
    s ∈ gapRange first_season last_season ↔ first_season ≤ s ∧ s ≤ last_season := by
  simp only [gapRange, List.mem_map, List.mem_range]
  constructor
  · rintro ⟨i, hi, rfl⟩; omega
  · rintro ⟨h1, h2⟩; exact ⟨s - first_season, by omega, by omega⟩

theorem nodup_gapRange {first_season last_season : Nat} :
    (gapRange first_season last_season).Nodup := by
  refine List.Nodup.map_on ?_ (List.nodup_range _)
  intro x hx y hy hxy
  omega

/-- Split a duplicate-free list at a member: the member occurs nowhere else. -/
theorem nodup_split {α : Type} {l : List α} {a : α} (hn : l.Nodup) (hm : a ∈ l) :
    ∃ l₁ l₂, l = l₁ ++ a :: l₂ ∧ a ∉ l₁ ∧ a ∉ l₂ := by
  obtain ⟨l₁, l₂, rfl⟩ := List.append_of_mem hm
  rw [List.nodup_append] at hn
  refine ⟨l₁, l₂, rfl, fun hc => ?_, (List.nodup_cons.mp hn.2.1).1⟩
  exact hn.2.2 hc (List.mem_cons_self a l₂)

theorem hasKey_append {db l : List HistoryRecord} {tid s : Nat} :
    hasKey (db ++ l) tid s = (hasKey db tid s || hasKey l tid s) := by
  simp [hasKey, List.any_append]

theorem hasKey_eq_false_iff {db : List HistoryRecord} {tid s : Nat} :
    hasKey db tid s = false ↔ countKey db tid s = 0 := by
  simp only [hasKey, countKey, List.any_eq_false, List.countP_eq_zero]

theorem countKey_append {db l : List HistoryRecord} {tid s : Nat} :
    countKey (db ++ l) tid s = countKey db tid s + countKey l tid s := by
  simp [countKey, List.countP_append]

theorem hasKey_insertDB_self {db : List HistoryRecord} {r : HistoryRecord} :
    hasKey (insertDB db r) r.team_id r.season = true := by
  unfold insertDB
  by_cases h : hasKey db r.team_id r.season
  · simp [h]
  · simp only [h, if_neg, Bool.false_eq_true, if_false]
    simp [hasKey_append, hasKey, keyMatch]

theorem hasKey_insertDB_mono {db : List HistoryRecord} {r : HistoryRecord} {tid s : Nat}
    (h : hasKey db tid s = true) : hasKey (insertDB db r) tid s = true := by
  unfold insertDB
  split
  · exact h
  · rw [hasKey_append, h, Bool.true_or]

theorem hasKey_applyInserts {db : List HistoryRecord} {rs : List HistoryRecord} {tid s : Nat} :
    hasKey (applyInserts db rs) tid s = (hasKey db tid s || rs.any (keyMatch tid s)) := by
  induction rs generalizing db with
  | nil => simp [applyInserts]
  | cons r rs ih =>
    show hasKey (applyInserts (insertDB db r) rs) tid s = _
    rw [ih, List.any_cons]
    unfold insertDB
    split
    · rename_i hk
      by_cases hr : keyMatch tid s r = true
      · have : r.team_id = tid ∧ r.season = s := of_decide_eq_true hr
        rw [← this.1, ← this.2, hk]
        simp
      · simp [hr]
    · rw [hasKey_append]
      cases hkr : keyMatch tid s r
      · simp [hasKey, hkr]
      · simp [hasKey, hkr]

theorem insertDB_pres_amo {db : List HistoryRecord} {r : HistoryRecord}
    (h : AtMostOne db) : AtMostOne (insertDB db r) := by
  intro tid s
  unfold insertDB
  split
  · exact h tid s
  · rename_i hk
    rw [countKey_append]
    by_cases hr : keyMatch tid s r = true
    · obtain ⟨h1, h2⟩ := of_decide_eq_true hr
      subst h1; subst h2
      have h0 : countKey db r.team_id r.season = 0 :=
        hasKey_eq_false_iff.mp (by simpa using hk)
      have h1 : countKey [r] r.team_id r.season = 1 := by
        simp [countKey, List.countP_cons, hr]
      omega
    · have h1 : countKey [r] tid s = 0 := by
        simp only [countKey, List.countP_cons, List.countP_nil]
        simp [hr]
      have := h tid s
      omega

theorem applyInserts_pres_amo {db : List HistoryRecord} {rs : List HistoryRecord}
    (h : AtMostOne db) : AtMostOne (applyInserts db rs) := by
  induction rs generalizing db with
  | nil => exact h
  | cons r rs ih => exact ih (insertDB_pres_amo h)

theorem amo_nil : AtMostOne [] := by
  intro tid s
  simp [countKey]

theorem countKey_eq_one {db : List HistoryRecord} {tid s : Nat}
    (h1 : hasKey db tid s = true) (h2 : AtMostOne db) : countKey db tid s = 1 := by
  have hlt : 0 < countKey db tid s := by
    simp only [hasKey, List.any_eq_true] at h1
    obtain ⟨r, hr, hk⟩ := h1
    simpa [countKey, List.countP_pos_iff] using ⟨r, hr, hk⟩
  have := h2 tid s
  omega

/-! ### Lookup and grouping lemmas -/

theorem lookupMap_mem {map : TeamIdMap} {k : String} {t : Nat}
    (h : lookupMap map k = some t) : (k, t) ∈ map := by
  induction map with
  | nil => simp [lookupMap] at h
  | cons p rest ih =>
    obtain ⟨k', t'⟩ := p
    rw [lookupMap] at h
    split at h
    · rename_i hk
      cases h
      subst hk
      exact List.mem_cons_self _ _
    · exact List.mem_cons_of_mem _ (ih h)

theorem mem_lookupMap {map : TeamIdMap} {k : String} {t : Nat}
    (hn : (map.map Prod.fst).Nodup) (h : (k, t) ∈ map) : lookupMap map k = some t := by
  induction map with
  | nil => simp at h
  | cons p rest ih =>
    obtain ⟨k', t'⟩ := p
    rw [List.map_cons, List.nodup_cons] at hn
    rw [List.mem_cons] at h
    rw [lookupMap]
    rcases h with h | h
    · cases h
      simp
    · have hk : k' ≠ k := by
        intro hc
        apply hn.1
        rw [hc]
        exact List.mem_map.mpr ⟨(k, t), h, rfl⟩
      rw [if_neg hk]
      exact ih hn.2 h

theorem values_inj {map : TeamIdMap} {k₁ k₂ : String} {t : Nat}
    (hn : (map.map Prod.snd).Nodup) (h₁ : (k₁, t) ∈ map) (h₂ : (k₂, t) ∈ map) : k₁ = k₂ := by
  induction map with
  | nil => simp at h₁
  | cons p rest ih =>
    obtain ⟨k', t'⟩ := p
    rw [List.map_cons, List.nodup_cons] at hn
    rw [List.mem_cons] at h₁ h₂
    rcases h₁ with h₁ | h₁ <;> rcases h₂ with h₂ | h₂
    · rw [Prod.mk.injEq] at h₁ h₂
      rw [h₁.1, h₂.1]
    · cases h₁
      exact absurd (List.mem_map.mpr ⟨(k₂, t), h₂, rfl⟩) hn.1
    · cases h₂
      exact absurd (List.mem_map.mpr ⟨(k₁, t), h₁, rfl⟩) hn.1
    · exact ih hn.2 h₁ h₂

theorem lookupMap_inj {map : TeamIdMap} {k₁ k₂ : String} {t : Nat}
    (hwf : mapWF map = true)
    (h₁ : lookupMap map k₁ = some t) (h₂ : lookupMap map k₂ = some t) : k₁ = k₂ := by
  have hn : (map.map Prod.snd).Nodup := by
    have := (Bool.and_eq_true _ _).mp hwf
    exact of_decide_eq_true this.2
  exact values_inj hn (lookupMap_mem h₁) (lookupMap_mem h₂)

theorem bucketOf_insertGroup {gs : List (String × List TeamEntry)} {s k : String}
    {t : TeamEntry} :
    bucketOf (insertGroup gs s t) k =
      if k = s then some ((bucketOf gs s).getD [] ++ [t]) else bucketOf gs k := by
  induction gs with
  | nil =>
    by_cases hks : k = s
    · subst hks
      simp [insertGroup, bucketOf]
    · have hsk : ¬ s = k := fun h => hks h.symm
      simp [insertGroup, bucketOf, hks, hsk]
  | cons p rest ih =>
    obtain ⟨k', v'⟩ := p
    by_cases hk's : k' = s
    · subst hk's
      by_cases hks : k = k'
      · subst hks
        simp [insertGroup, bucketOf]
      · have h1 : ¬ k' = k := fun h => hks h.symm
        simp [insertGroup, bucketOf, hks, h1]
    · rw [insertGroup, if_neg hk's]
      by_cases hk'k : k' = k
      · subst hk'k
        have hks : ¬ k' = s := hk's
        simp [bucketOf, hks]
      · rw [bucketOf, if_neg hk'k, ih]
        simp [bucketOf, hk's, hk'k]

theorem bucketOf_eq_none {gs : List (String × List TeamEntry)} {k : String} :
    bucketOf gs k = none ↔ k ∉ gs.map Prod.fst := by
  induction gs with
  | nil => simp [bucketOf]
  | cons p rest ih =>
    obtain ⟨k', v'⟩ := p
    rw [bucketOf, List.map_cons]
    by_cases h : k' = k
    · subst h
      simp
    · have hkk' : ¬ k = k' := fun hc => h hc.symm
      rw [if_neg h, ih]
      simp [List.mem_cons, hkk']

theorem keys_insertGroup {gs : List (String × List TeamEntry)} {s : String} {t : TeamEntry} :
    (insertGroup gs s t).map Prod.fst =
      if s ∈ gs.map Prod.fst then gs.map Prod.fst else gs.map Prod.fst ++ [s] := by
  induction gs with
  | nil => simp [insertGroup]
  | cons p rest ih =>
    obtain ⟨k', v'⟩ := p
    by_cases h : k' = s
    · subst h
      simp [insertGroup]
    · have hsk' : ¬ s = k' := fun hc => h hc.symm
      simp only [insertGroup, if_neg h, List.map_cons, ih, List.mem_cons]
      by_cases hm : s ∈ rest.map Prod.fst
      · simp [hm, hsk']
      · simp [hm, hsk']

theorem nodup_keys_insertGroup {gs : List (String × List TeamEntry)} {s : String}
    {t : TeamEntry} (hn : (gs.map Prod.fst).Nodup) :
    ((insertGroup gs s t).map Prod.fst).Nodup := by
  rw [keys_insertGroup]
  by_cases hm : s ∈ gs.map Prod.fst
  · simpa [hm] using hn
  · simp only [hm, if_false]
    simp [List.nodup_append, hn, hm]

theorem mem_insertGroup {gs : List (String × List TeamEntry)} {s : String} {t : TeamEntry}
    {p : String × List TeamEntry} (h : p ∈ insertGroup gs s t) : p.1 = s ∨ p ∈ gs := by
  induction gs with
  | nil =>
    simp only [insertGroup, List.mem_singleton] at h
    subst h
    exact Or.inl rfl
  | cons q rest ih =>
    obtain ⟨k', v'⟩ := q
    rw [insertGroup] at h
    split at h
    · rename_i hk
      subst hk
      rw [List.mem_cons] at h
      rcases h with h | h
      · subst h
        exact Or.inl rfl
      · exact Or.inr (List.mem_cons_of_mem _ h)
    · rw [List.mem_cons] at h
      rcases h with h | h
      · subst h
        exact Or.inr (List.mem_cons_self _ _)
      · rcases ih h with h' | h'
        · exact Or.inl h'
        · exact Or.inr (List.mem_cons_of_mem _ h')

theorem bucketOf_of_mem {gs : List (String × List TeamEntry)} {k : String}
    {v : List TeamEntry} (hn : (gs.map Prod.fst).Nodup) (h : (k, v) ∈ gs) :
    bucketOf gs k = some v := by
  induction gs with
  | nil => simp at h
  | cons p rest ih =>
    obtain ⟨k', v'⟩ := p
    rw [List.map_cons, List.nodup_cons] at hn
    rw [List.mem_cons] at h
    rw [bucketOf]
    rcases h with h | h
    · cases h
      simp
    · have hk : k' ≠ k := by
        intro hc
        subst hc
        exact hn.1 (List.mem_map.mpr ⟨(k', v), h, rfl⟩)
      rw [if_neg hk]
      exact ih hn.2 h

theorem mem_of_bucketOf {gs : List (String × List TeamEntry)} {k : String}
    {v : List TeamEntry} (h : bucketOf gs k = some v) : (k, v) ∈ gs := by
  induction gs with
  | nil => simp [bucketOf] at h
  | cons p rest ih =>
    obtain ⟨k', v'⟩ := p
    rw [bucketOf] at h
    split at h
    · rename_i hk
      cases h
      subst hk
      exact List.mem_cons_self _ _
    · exact List.mem_cons_of_mem _ (ih h)

theorem bucketOf_fold_some {k : String} (hk : k ≠ "") :
    ∀ (teams : List TeamEntry) (acc : List (String × List TeamEntry)) (b : List TeamEntry),
    bucketOf acc k = some b →
    bucketOf (teams.foldl groupAccStep acc) k =
      some (b ++ teams.filter (fun t => decide (t.sourceId = some k))) := by
  intro teams
  induction teams with
  | nil => intro acc b hb; simpa using hb
  | cons t rest ih =>
    intro acc b hb
    rw [List.foldl_cons]
    cases ht : t.sourceId with
    | none =>
      have hstep : groupAccStep acc t = acc := by simp [groupAccStep, ht]
      have hfil : (t :: rest).filter (fun t => decide (t.sourceId = some k)) =
          rest.filter (fun t => decide (t.sourceId = some k)) := by
        simp [List.filter_cons, ht]
      rw [hstep, hfil]
      exact ih acc b hb
    | some s =>
      by_cases hse : s = ""
      · subst hse
        have hke : ¬ ("" : String) = k := fun hc => hk hc.symm
        have hstep : groupAccStep acc t = acc := by simp [groupAccStep, ht]
        have hfil : (t :: rest).filter (fun t => decide (t.sourceId = some k)) =
            rest.filter (fun t => decide (t.sourceId = some k)) := by
          simp [List.filter_cons, ht, hke]
        rw [hstep, hfil]
        exact ih acc b hb
      · by_cases hsk : s = k
        · subst hsk
          have hstep : groupAccStep acc t = insertGroup acc s t := by
            simp [groupAccStep, ht, hse]
          have hfil : (t :: rest).filter (fun t => decide (t.sourceId = some s)) =
              t :: rest.filter (fun t => decide (t.sourceId = some s)) := by
            simp [List.filter_cons, ht]
          have hb' : bucketOf (insertGroup acc s t) s = some (b ++ [t]) := by
            rw [bucketOf_insertGroup, if_pos rfl, hb]
            rfl
          rw [hstep, hfil, ih _ _ hb']
          simp
        · have hstep : groupAccStep acc t = insertGroup acc s t := by
            simp [groupAccStep, ht, hse]
          have hfil : (t :: rest).filter (fun t => decide (t.sourceId = some k)) =
              rest.filter (fun t => decide (t.sourceId = some k)) := by
            simp [List.filter_cons, ht, hsk]
          have hb' : bucketOf (insertGroup acc s t) k = some b := by
            rw [bucketOf_insertGroup, if_neg (fun hc : k = s => hsk hc.symm)]
            exact hb
          rw [hstep, hfil]
          exact ih _ b hb'

theorem bucketOf_fold_none {k : String} (hk : k ≠ "") :
    ∀ (teams : List TeamEntry) (acc : List (String × List TeamEntry)),
    bucketOf acc k = none →
    bucketOf (teams.foldl groupAccStep acc) k =
      if teams.filter (fun t => decide (t.sourceId = some k)) = [] then none
      else some (teams.filter (fun t => decide (t.sourceId = some k))) := by
  intro teams
  induction teams with
  | nil => intro acc hb; simpa using hb
  | cons t rest ih =>
    intro acc hb
    rw [List.foldl_cons]
    cases ht : t.sourceId with
    | none =>
      have hstep : groupAccStep acc t = acc := by simp [groupAccStep, ht]
      have hfil : (t :: rest).filter (fun t => decide (t.sourceId = some k)) =
          rest.filter (fun t => decide (t.sourceId = some k)) := by
        simp [List.filter_cons, ht]
      rw [hstep, hfil]
      exact ih acc hb
    | some s =>
      by_cases hse : s = ""
      · subst hse
        have hke : ¬ ("" : String) = k := fun hc => hk hc.symm
        have hstep : groupAccStep acc t = acc := by simp [groupAccStep, ht]
        have hfil : (t :: rest).filter (fun t => decide (t.sourceId = some k)) =
            rest.filter (fun t => decide (t.sourceId = some k)) := by
          simp [List.filter_cons, ht, hke]
        rw [hstep, hfil]
        exact ih acc hb
      · by_cases hsk : s = k
        · subst hsk
          have hstep : groupAccStep acc t = insertGroup acc s t := by
            simp [groupAccStep, ht, hse]
          have hfil : (t :: rest).filter (fun t => decide (t.sourceId = some s)) =
              t :: rest.filter (fun t => decide (t.sourceId = some s)) := by
            simp [List.filter_cons, ht]
          have hb' : bucketOf (insertGroup acc s t) s = some [t] := by
            rw [bucketOf_insertGroup, if_pos rfl, hb]
            rfl
          rw [hstep, hfil, bucketOf_fold_some hk _ _ _ hb']
          simp
        · have hstep : groupAccStep acc t = insertGroup acc s t := by
            simp [groupAccStep, ht, hse]
          have hfil : (t :: rest).filter (fun t => decide (t.sourceId = some k)) =
              rest.filter (fun t => decide (t.sourceId = some k)) := by
            simp [List.filter_cons, ht, hsk]
          have hb' : bucketOf (insertGroup acc s t) k = none := by
            rw [bucketOf_insertGroup, if_neg (fun hc : k = s => hsk hc.symm)]
            exact hb
          rw [hstep, hfil]
          exact ih _ hb'

theorem bucketOf_groupBySource {teams : List TeamEntry} {k : String} (hk : k ≠ "") :
    bucketOf (groupBySource teams) k =
      if teams.filter (fun t => decide (t.sourceId = some k)) = [] then none
      else some (teams.filter (fun t => decide (t.sourceId = some k))) :=
  bucketOf_fold_none hk teams [] rfl

theorem nodup_keys_groupBySource {teams : List TeamEntry} :
    ((groupBySource teams).map Prod.fst).Nodup := by
  have : ∀ (l : List TeamEntry) (acc : List (String × List TeamEntry)),
      (acc.map Prod.fst).Nodup → ((l.foldl groupAccStep acc).map Prod.fst).Nodup := by
    intro l
    induction l with
    | nil => intro acc h; exact h
    | cons t rest ih =>
      intro acc h
      rw [List.foldl_cons]
      apply ih
      unfold groupAccStep
      cases t.sourceId with
      | none => exact h
      | some s =>
        by_cases hse : s = ""
        · simpa [hse] using h
        · simpa [hse] using nodup_keys_insertGroup h
  exact this teams [] (by simp)

theorem groupBySource_key_ne {teams : List TeamEntry} {g : String × List TeamEntry}
    (h : g ∈ groupBySource teams) : g.1 ≠ "" := by
  have : ∀ (l : List TeamEntry) (acc : List (String × List TeamEntry)),
      (∀ p ∈ acc, p.1 ≠ "") → ∀ p ∈ l.foldl groupAccStep acc, p.1 ≠ "" := by
    intro l
    induction l with
    | nil => intro acc h p hp; exact h p hp
    | cons t rest ih =>
      intro acc hacc p hp
      rw [List.foldl_cons] at hp
      refine ih _ ?_ p hp
      intro q hq
      cases hts : t.sourceId with
      | none =>
        have hstep : groupAccStep acc t = acc := by simp [groupAccStep, hts]
        rw [hstep] at hq
        exact hacc q hq
      | some s =>
        by_cases hse : s = ""
        · have hstep : groupAccStep acc t = acc := by simp [groupAccStep, hts, hse]
          rw [hstep] at hq
          exact hacc q hq
        · have hstep : groupAccStep acc t = insertGroup acc s t := by
            simp [groupAccStep, hts, hse]
          rw [hstep] at hq
          rcases mem_insertGroup hq with h' | h'
          · rw [h']; exact hse
          · exact hacc q h'
  exact this teams [] (by simp) g h

theorem mem_groupBySource_char {teams : List TeamEntry} {g : String × List TeamEntry}
    (h : g ∈ groupBySource teams) :
    g.2 = teams.filter (fun t => decide (t.sourceId = some g.1)) ∧ g.2 ≠ [] := by
  have hk : g.1 ≠ "" := groupBySource_key_ne h
  have hb : bucketOf (groupBySource teams) g.1 = some g.2 :=
    bucketOf_of_mem nodup_keys_groupBySource (by exact h)
  rw [bucketOf_groupBySource hk] at hb
  split at hb
  · cases hb
  · rename_i hne
    have heq := Option.some.inj hb
    exact ⟨heq.symm, heq ▸ hne⟩

theorem mem_groupBySource_of_filter {teams : List TeamEntry} {k : String} (hk : k ≠ "")
    (hne : teams.filter (fun t => decide (t.sourceId = some k)) ≠ []) :
    (k, teams.filter (fun t => decide (t.sourceId = some k))) ∈ groupBySource teams := by
  apply mem_of_bucketOf
  rw [bucketOf_groupBySource hk, if_neg hne]

/-! ### Minimum / maximum of a fold (Python `min(...)` / `max(...)`) -/

theorem foldl_min_le_init : ∀ (l : List Nat) (a : Nat), l.foldl Nat.min a ≤ a := by
  intro l
  induction l with
  | nil => intro a; exact Nat.le_refl a
  | cons x rest ih =>
    intro a
    rw [List.foldl_cons]
    exact Nat.le_trans (ih (Nat.min a x)) (Nat.min_le_left a x)

theorem foldl_min_le_mem : ∀ (l : List Nat) (a x : Nat), x ∈ l → l.foldl Nat.min a ≤ x := by
  intro l
  induction l with
  | nil => intro a x hx; simp at hx
  | cons y rest ih =>
    intro a x hx
    rw [List.foldl_cons]
    rcases List.mem_cons.mp hx with h | h
    · subst h
      exact Nat.le_trans (foldl_min_le_init _ _) (Nat.min_le_right a x)
    · exact ih _ x h

theorem foldl_max_ge_init : ∀ (l : List Nat) (a : Nat), a ≤ l.foldl Nat.max a := by
  intro l
  induction l with
  | nil => intro a; exact Nat.le_refl a
  | cons x rest ih =>
    intro a
    rw [List.foldl_cons]
    exact Nat.le_trans (Nat.le_max_left a x) (ih (Nat.max a x))

theorem foldl_max_ge_mem : ∀ (l : List Nat) (a x : Nat), x ∈ l → x ≤ l.foldl Nat.max a := by
  intro l
  induction l with
  | nil => intro a x hx; simp at hx
  | cons y rest ih =>
    intro a x hx
    rw [List.foldl_cons]
    rcases List.mem_cons.mp hx with h | h
    · subst h
      exact Nat.le_trans (Nat.le_max_right a x) (foldl_max_ge_init _ _)
    · exact ih _ x h

theorem mem_seasonsAppeared {d : SeasonsData} {sid : String} {s : Nat} :
    s ∈ seasonsAppeared d sid ↔ appearsIn d sid s = true ∧ 1925 ≤ s ∧ s ≤ 2025 := by
  rw [seasonsAppeared, List.mem_filter, mem_seasonRange]
  tauto

theorem firstSeason_le {d : SeasonsData} {sid : String} {s : Nat}
    (h : s ∈ seasonsAppeared d sid) : firstSeason d sid ≤ s := by
  rw [firstSeason]
  cases hap : seasonsAppeared d sid with
  | nil => rw [hap] at h; simp at h
  | cons a rest =>
    rw [hap] at h
    rcases List.mem_cons.mp h with h' | h'
    · subst h'
      exact foldl_min_le_init rest s
    · exact foldl_min_le_mem rest a s h'

theorem lastSeason_ge {d : SeasonsData} {sid : String} {s : Nat}
    (h : s ∈ seasonsAppeared d sid) : s ≤ lastSeason d sid := by
  rw [lastSeason]
  cases hap : seasonsAppeared d sid with
  | nil => rw [hap] at h; simp at h
  | cons a rest =>
    rw [hap] at h
    rcases List.mem_cons.mp h with h' | h'
    · subst h'
      exact foldl_max_ge_init rest s
    · exact foldl_max_ge_mem rest a s h'

theorem appearsIn_iff_entriesOf {d : SeasonsData} {sid : String} {s : Nat} :
    appearsIn d sid s = true ↔ entriesOf d s sid ≠ [] := by
  cases hls : lookupSeason d s with
  | none => simp [appearsIn, entriesOf, hls]
  | some ts =>
    simp only [appearsIn, entriesOf, hls, List.any_eq_true]
    constructor
    · rintro ⟨t, ht, hp⟩ hc
      have hmem : t ∈ ts.filter (fun t => decide (t.sourceId = some sid)) :=
        List.mem_filter.mpr ⟨ht, hp⟩
      rw [hc] at hmem
      simp at hmem
    · intro h
      rcases List.exists_mem_of_ne_nil _ h with ⟨t, ht⟩
      have := List.mem_filter.mp ht
      exact ⟨t, this.1, this.2⟩

/-! ### The forward scan -/

theorem findEventualGo_spec (sid : String) (d : SeasonsData) :
    ∀ l : List Nat, findEventualGo sid d l =
      match (l.filter (fun s => (lookupSeason d s).isSome)).find?
          (fun s => decide ((entriesOf d s sid).length ≤ 1)) with
      | none => none
      | some s =>
        match entriesOf d s sid with
        | [t] => t.conferenceId
        | _ => none := by
  intro l
  induction l with
  | nil => simp [findEventualGo]
  | cons s rest ih =>
    rw [List.filter_cons]
    cases hls : lookupSeason d s with
    | none =>
      have h1 : findEventualGo sid d (s :: rest) = findEventualGo sid d rest := by
        simp [findEventualGo, hls]
      rw [h1]
      simpa [Option.isSome_none] using ih
    | some ts =>
      have hent : entriesOf d s sid = ts.filter (fun t => decide (t.sourceId = some sid)) := by
        simp [entriesOf, hls]
      simp only [Option.isSome_some, if_pos]
      rcases hf : ts.filter (fun t => decide (t.sourceId = some sid)) with _ | ⟨t, _ | ⟨t2, rest2⟩⟩
      · have h1 : findEventualGo sid d (s :: rest) = none := by
          simp [findEventualGo, hls, hf]
        have hp : decide ((entriesOf d s sid).length ≤ 1) = true := by
          rw [hent, hf]; simp
        rw [h1, List.find?_cons]
        simp [hent, hf]
      · have h1 : findEventualGo sid d (s :: rest) = t.conferenceId := by
          simp [findEventualGo, hls, hf]
        rw [h1, List.find?_cons]
        simp [hent, hf]
      · have h1 : findEventualGo sid d (s :: rest) = findEventualGo sid d rest := by
          simp [findEventualGo, hls, hf]
        have hp : decide ((entriesOf d s sid).length ≤ 1) = false := by
          rw [hent, hf]; simp
        rw [h1, List.find?_cons, hent, hf]
        simpa using ih

/-! ### Structure of the resolution pass -/

theorem unmappedUpdate_records {st : BuildState} {sid : String} {season : Nat} :
    (unmappedUpdate st sid season).records = st.records := by
  unfold unmappedUpdate
  split <;> rfl

theorem unmappedUpdate_events_mono {st : BuildState} {sid : String} {season : Nat}
    {e : LogEvent} (h : e ∈ st.events) : e ∈ (unmappedUpdate st sid season).events := by
  unfold unmappedUpdate
  split
  · exact h
  · exact List.mem_append_left _ h

theorem groupStep_ok_records {map : TeamIdMap} {d : SeasonsData} {season : Nat}
    {st st' : BuildState} {g : String × List TeamEntry}
    (h : groupStep map d season st g = .ok st') :
    ∃ rs, st'.records = st.records ++ rs ∧
      ∀ r ∈ rs, r.season = season ∧ lookupMap map g.1 = some r.team_id ∧
        r.team_id ≠ 0 ∧ r.existed = true := by
  obtain ⟨sid, entries⟩ := g
  simp only [groupStep] at h
  split at h
  · cases h
    exact ⟨[], by simp [unmappedUpdate_records], by simp⟩
  · rename_i tid hlm
    split at h
    · cases h
      exact ⟨[], by simp [unmappedUpdate_records], by simp⟩
    · rename_i htid
      split at h
      · rename_i t
        cases h
        refine ⟨[⟨tid, season, t.conferenceId, true⟩], by simp, ?_⟩
        intro r hr
        rw [List.mem_singleton] at hr
        subst hr
        exact ⟨rfl, hlm, htid, rfl⟩
      · split at h
        · split at h
          · cases h
          · rename_i c hps
            cases h
            refine ⟨[⟨tid, season, c, true⟩], by simp, ?_⟩
            intro r hr
            rw [List.mem_singleton] at hr
            subst hr
            exact ⟨rfl, hlm, htid, rfl⟩
        · rename_i ev hev
          split at h
          · cases h
            exact ⟨[], by simp, by simp⟩
          · cases h
            refine ⟨(entries.map (fun t => t.conferenceId)).filter
                (fun c => decide (c ≠ some ev)) |>.map
                (fun c => ⟨tid, season, c, true⟩), by simp, ?_⟩
            intro r hr
            rw [List.mem_map] at hr
            obtain ⟨c, _, hc⟩ := hr
            subst hc
            exact ⟨rfl, hlm, htid, rfl⟩

theorem groupStep_ok_events {map : TeamIdMap} {d : SeasonsData} {season : Nat}
    {st st' : BuildState} {g : String × List TeamEntry}
    (h : groupStep map d season st g = .ok st') {e : LogEvent}
    (he : e ∈ st.events) : e ∈ st'.events := by
  obtain ⟨sid, entries⟩ := g
  simp only [groupStep] at h
  split at h
  · cases h
    exact unmappedUpdate_events_mono he
  · split at h
    · cases h
      exact unmappedUpdate_events_mono he
    · split at h
      · cases h
        exact he
      · split at h
        · split at h
          · cases h
          · cases h
            exact List.mem_append_left _ he
        · split at h
          · cases h
            exact List.mem_append_left _ he
          · cases h
            exact he

theorem foldE_records {α : Type} {f : BuildState → α → Except String BuildState}
    (Q : HistoryRecord → Prop) :
    ∀ (l : List α) (st st' : BuildState),
    (∀ s a s', a ∈ l → f s a = .ok s' → ∃ rs, s'.records = s.records ++ rs ∧ ∀ r ∈ rs, Q r) →
    foldE f st l = .ok st' →
    ∃ rs, st'.records = st.records ++ rs ∧ ∀ r ∈ rs, Q r := by
  intro l
  induction l with
  | nil =>
    intro st st' _ h
    rw [foldE] at h
    cases h
    exact ⟨[], by simp, by simp⟩
  | cons a l ih =>
    intro st st' hf h
    obtain ⟨stm, h1, h2⟩ := foldE_cons h
    obtain ⟨rs1, hr1, hq1⟩ := hf st a stm (List.mem_cons_self a l) h1
    obtain ⟨rs2, hr2, hq2⟩ :=
      ih stm st' (fun s b s' hb => hf s b s' (List.mem_cons_of_mem a hb)) h2
    refine ⟨rs1 ++ rs2, by rw [hr2, hr1, List.append_assoc], ?_⟩
    intro r hr
    rcases List.mem_append.mp hr with h' | h'
    · exact hq1 r h'
    · exact hq2 r h'

theorem seasonStep_eq_some {map : TeamIdMap} {d : SeasonsData} {st : BuildState}
    {season : Nat} {teams : List TeamEntry} (hls : lookupSeason d season = some teams) :
    seasonStep map d st season = foldE (groupStep map d season) st (groupBySource teams) := by
  rw [seasonStep, hls]

theorem seasonStep_eq_none {map : TeamIdMap} {d : SeasonsData} {st : BuildState}
    {season : Nat} (hls : lookupSeason d season = none) :
    seasonStep map d st season = .ok st := by
  rw [seasonStep, hls]

theorem seasonStep_ok_records {map : TeamIdMap} {d : SeasonsData} {st st' : BuildState}
    {season : Nat} (h : seasonStep map d st season = .ok st') :
    ∃ rs, st'.records = st.records ++ rs ∧
      ∀ r ∈ rs, r.season = season ∧ (∃ sid, lookupMap map sid = some r.team_id) ∧
        r.team_id ≠ 0 ∧ r.existed = true := by
  cases hls : lookupSeason d season with
  | none =>
    rw [seasonStep_eq_none hls] at h
    cases h
    exact ⟨[], by simp, by simp⟩
  | some teams =>
    rw [seasonStep_eq_some hls] at h
    refine foldE_records _ _ _ _ ?_ h
    intro s0 g s0' _ hstep
    obtain ⟨rs, hr, hq⟩ := groupStep_ok_records hstep
    refine ⟨rs, hr, ?_⟩
    intro r hrr
    obtain ⟨h1, h2, h3, h4⟩ := hq r hrr
    exact ⟨h1, ⟨g.1, h2⟩, h3, h4⟩

theorem seasonStep_events_mono {map : TeamIdMap} {d : SeasonsData} {st st' : BuildState}
    {season : Nat} (h : seasonStep map d st season = .ok st') {e : LogEvent}
    (he : e ∈ st.events) : e ∈ st'.events := by
  cases hls : lookupSeason d season with
  | none =>
    rw [seasonStep_eq_none hls] at h
    cases h
    exact he
  | some teams =>
    rw [seasonStep_eq_some hls] at h
    exact foldE_pres (fun stx => e ∈ stx.events)
      (fun s0 g s0' _ hstep hp => groupStep_ok_events hstep hp) h he

theorem seasonStep_filter_ne {map : TeamIdMap} {d : SeasonsData} {st st' : BuildState}
    {season tid s : Nat} (hne : season ≠ s)
    (h : seasonStep map d st season = .ok st') :
    st'.records.filter (keyMatch tid s) = st.records.filter (keyMatch tid s) := by
  obtain ⟨rs, hr, hq⟩ := seasonStep_ok_records h
  rw [hr, List.filter_append]
  have hnil : rs.filter (keyMatch tid s) = [] := by
    rw [List.filter_eq_nil_iff]
    intro r hrr hk
    rw [keyMatch] at hk
    have hks := (of_decide_eq_true hk).2
    exact hne ((hq r hrr).1 ▸ hks)
  rw [hnil, List.append_nil]

theorem groupStep_filter_ne {map : TeamIdMap} {d : SeasonsData} {st st' : BuildState}
    {s tid : Nat} {sid : String} {g : String × List TeamEntry}
    (hwf : mapWF map = true) (hm : lookupMap map sid = some tid)
    (hg : g.1 ≠ sid) (h : groupStep map d s st g = .ok st') :
    st'.records.filter (keyMatch tid s) = st.records.filter (keyMatch tid s) := by
  obtain ⟨rs, hr, hq⟩ := groupStep_ok_records h
  rw [hr, List.filter_append]
  have hnil : rs.filter (keyMatch tid s) = [] := by
    rw [List.filter_eq_nil_iff]
    intro r hrr hk
    rw [keyMatch] at hk
    obtain ⟨hkt, _⟩ := of_decide_eq_true hk
    have hlk := (hq r hrr).2.1
    rw [hkt] at hlk
    exact hg (lookupMap_inj hwf hlk hm)
  rw [hnil, List.append_nil]

theorem nodup_keys_split {l : List (String × List TeamEntry)} {p : String × List TeamEntry}
    (hn : (l.map Prod.fst).Nodup) (hm : p ∈ l) :
    ∃ A B, l = A ++ p :: B ∧ (∀ q ∈ A, q.1 ≠ p.1) ∧ (∀ q ∈ B, q.1 ≠ p.1) := by
  obtain ⟨A, B, rfl⟩ := List.append_of_mem hm
  rw [List.map_append, List.map_cons, List.nodup_append] at hn
  refine ⟨A, B, rfl, ?_, ?_⟩
  · intro q hq hc
    exact hn.2.2 (List.mem_map.mpr ⟨q, hq, rfl⟩) (List.mem_cons.mpr (Or.inl hc))
  · intro q hq hc
    exact (List.nodup_cons.mp hn.2.1).1 (List.mem_map.mpr ⟨q, hq, hc⟩)

/-- Locate, inside a successful resolution pass, the processing of team `sid`
in season `s`: there is an intermediate state `st₀` holding no record keyed
`(tid, s)`, the group step for `sid`'s entries succeeds from it, and the final
state's records keyed `(tid, s)` and its events are those left by that step. -/
theorem build_locate {d : SeasonsData} {map : TeamIdMap} {st : BuildState}
    {sid : String} {tid : Nat} {s : Nat} {teams : List TeamEntry}
    (hb : build_conference_history d map = .ok st)
    (hwf : mapWF map = true)
    (hm : lookupMap map sid = some tid) (_htid : tid ≠ 0) (hsid : sid ≠ "")
    (hls : lookupSeason d s = some teams)
    (hlo : 1925 ≤ s) (hhi : s ≤ 2025)
    (hne : teams.filter (fun t => decide (t.sourceId = some sid)) ≠ []) :
    ∃ st₀ st₁,
      groupStep map d s st₀
        (sid, teams.filter (fun t => decide (t.sourceId = some sid))) = .ok st₁ ∧
      st₀.records.filter (keyMatch tid s) = [] ∧
      st.records.filter (keyMatch tid s) = st₁.records.filter (keyMatch tid s) ∧
      ∀ e ∈ st₁.events, e ∈ st.events := by
  have hmem : s ∈ seasonsDesc := mem_seasonsDesc.mpr ⟨hlo, hhi⟩
  obtain ⟨S₁, S₂, hsplit, hs1, hs2⟩ := nodup_split nodup_seasonsDesc hmem
  rw [build_conference_history, hsplit] at hb
  obtain ⟨stA, hA, hrest⟩ := foldE_append hb
  obtain ⟨stB, hsB, hS2⟩ := foldE_cons hrest
  have hAfilter : stA.records.filter (keyMatch tid s) = [] :=
    foldE_pres (fun stx => stx.records.filter (keyMatch tid s) = [])
      (fun s0 a s0' ha hstep hp => by
        have hp' : List.filter (keyMatch tid s) s0.records = [] := hp
        show List.filter (keyMatch tid s) s0'.records = []
        rw [@seasonStep_filter_ne map d s0 s0' a tid s (fun hc => hs1 (hc ▸ ha)) hstep]
        exact hp') hA (by simp)
  rw [seasonStep_eq_some hls] at hsB
  have hgmem : (sid, teams.filter (fun t => decide (t.sourceId = some sid))) ∈
      groupBySource teams := mem_groupBySource_of_filter hsid hne
  obtain ⟨A, B, hAB, hqA, hqB⟩ := nodup_keys_split nodup_keys_groupBySource hgmem
  rw [hAB] at hsB
  obtain ⟨st₀, hA2, hrest2⟩ := foldE_append hsB
  obtain ⟨st₁, hstep, hB2⟩ := foldE_cons hrest2
  refine ⟨st₀, st₁, hstep, ?_, ?_, ?_⟩
  · exact foldE_pres (fun stx => stx.records.filter (keyMatch tid s) = [])
      (fun s0 g0 s0' hg0 hstep0 hp => by
        have hp' : List.filter (keyMatch tid s) s0.records = [] := hp
        show List.filter (keyMatch tid s) s0'.records = []
        rw [@groupStep_filter_ne map d s0 s0' s tid sid g0 hwf hm (hqA g0 hg0) hstep0]
        exact hp') hA2 hAfilter
  · have hBfix : stB.records.filter (keyMatch tid s) = st₁.records.filter (keyMatch tid s) :=
      foldE_pres
        (fun stx => stx.records.filter (keyMatch tid s) = st₁.records.filter (keyMatch tid s))
        (fun s0 g0 s0' hg0 hstep0 hp => by
          have hp' : List.filter (keyMatch tid s) s0.records =
              List.filter (keyMatch tid s) st₁.records := hp
          show List.filter (keyMatch tid s) s0'.records =
            List.filter (keyMatch tid s) st₁.records
          rw [@groupStep_filter_ne map d s0 s0' s tid sid g0 hwf hm (hqB g0 hg0) hstep0]
          exact hp') hB2 rfl
    have hS2fix : st.records.filter (keyMatch tid s) = stB.records.filter (keyMatch tid s) :=
      foldE_pres
        (fun stx => stx.records.filter (keyMatch tid s) = stB.records.filter (keyMatch tid s))
        (fun s0 a s0' ha hstep0 hp => by
          have hp' : List.filter (keyMatch tid s) s0.records =
              List.filter (keyMatch tid s) stB.records := hp
          show List.filter (keyMatch tid s) s0'.records =
            List.filter (keyMatch tid s) stB.records
          rw [@seasonStep_filter_ne map d s0 s0' a tid s (fun hc => hs2 (hc ▸ ha)) hstep0]
          exact hp') hS2 rfl
    rw [hS2fix, hBfix]
  · intro e he
    have h1 : e ∈ stB.events :=
      foldE_pres (fun stx => e ∈ stx.events)
        (fun s0 g0 s0' _ hstep0 hp => groupStep_ok_events hstep0 hp) hB2 he
    exact foldE_pres (fun stx => e ∈ stx.events)
      (fun s0 a s0' _ hstep0 hp => seasonStep_events_mono hstep0 hp) hS2 h1

/-- The single-entry branch of the group step. -/
theorem groupStep_single {map : TeamIdMap} {d : SeasonsData} {season : Nat}
    {st : BuildState} {sid : String} {tid : Nat} {t : TeamEntry}
    (hm : lookupMap map sid = some tid) (htid : tid ≠ 0) :
    groupStep map d season st (sid, [t]) =
      .ok { st with records := st.records ++ [⟨tid, season, t.conferenceId, true⟩] } := by
  simp only [groupStep, hm, if_neg htid]

/-- The duplicate branch when no eventual conference is found and the sort
succeeds. -/
theorem groupStep_dup_fallback {map : TeamIdMap} {d : SeasonsData} {season : Nat}
    {st : BuildState} {sid : String} {tid : Nat} {t1 t2 : TeamEntry} {ts : List TeamEntry}
    {c : Option Int}
    (hm : lookupMap map sid = some tid) (htid : tid ≠ 0)
    (hfe : find_eventual_conference sid season d = none)
    (hps : pySortedFirst ((t1 :: t2 :: ts).map (fun t => t.conferenceId)) = .ok c) :
    groupStep map d season st (sid, t1 :: t2 :: ts) =
      .ok { st with records := st.records ++ [⟨tid, season, c, true⟩],
                    events := st.events ++ [.warnNoEventual sid season] } := by
  simp only [groupStep, hm, if_neg htid, hfe, hps]

/-- The duplicate branch when every reported conference equals the eventual
one: skip with a warning. -/
theorem groupStep_dup_allmatch {map : TeamIdMap} {d : SeasonsData} {season : Nat}
    {st : BuildState} {sid : String} {tid : Nat} {t1 t2 : TeamEntry} {ts : List TeamEntry}
    {ev : Int}
    (hm : lookupMap map sid = some tid) (htid : tid ≠ 0)
    (hfe : find_eventual_conference sid season d = some ev)
    (hcor : ((t1 :: t2 :: ts).map (fun t => t.conferenceId)).filter
      (fun c => decide (c ≠ some ev)) = []) :
    groupStep map d season st (sid, t1 :: t2 :: ts) =
      .ok { st with events := st.events ++ [.warnAllMatch sid season] } := by
  simp only [groupStep, hm, if_neg htid, hfe, hcor]
  rfl

/-- The duplicate branch when some reported conferences differ from the
eventual one: one insert per differing reported value. -/
theorem groupStep_dup_differs {map : TeamIdMap} {d : SeasonsData} {season : Nat}
    {st : BuildState} {sid : String} {tid : Nat} {t1 t2 : TeamEntry} {ts : List TeamEntry}
    {ev : Int}
    (hm : lookupMap map sid = some tid) (htid : tid ≠ 0)
    (hfe : find_eventual_conference sid season d = some ev)
    (hcor : ((t1 :: t2 :: ts).map (fun t => t.conferenceId)).filter
      (fun c => decide (c ≠ some ev)) ≠ []) :
    groupStep map d season st (sid, t1 :: t2 :: ts) =
      .ok { st with records :=
        (st.records ++
          ((((t1 :: t2 :: ts).map (fun t => t.conferenceId)).filter
            (fun c => decide (c ≠ some ev))).map (fun c => ⟨tid, season, c, true⟩))) } := by
  have hemp : (((t1 :: t2 :: ts).map (fun t => t.conferenceId)).filter
      (fun c => decide (c ≠ some ev))).isEmpty = false := by
    rw [List.isEmpty_eq_false_iff_exists_mem]
    exact List.exists_mem_of_ne_nil _ hcor
  simp only [groupStep, hm, if_neg htid, hfe, hemp]
  rfl

/-- The duplicate branch when no eventual conference is found and the sort
raises: the exception propagates. -/
theorem groupStep_dup_fallback_error {map : TeamIdMap} {d : SeasonsData} {season : Nat}
    {st : BuildState} {sid : String} {tid : Nat} {t1 t2 : TeamEntry} {ts : List TeamEntry}
    {e : String}
    (hm : lookupMap map sid = some tid) (htid : tid ≠ 0)
    (hfe : find_eventual_conference sid season d = none)
    (hps : pySortedFirst ((t1 :: t2 :: ts).map (fun t => t.conferenceId)) = .error e) :
    groupStep map d season st (sid, t1 :: t2 :: ts) = .error e := by
  simp only [groupStep, hm, if_neg htid, hfe, hps]

theorem keyMatch_mk {tid s : Nat} {c : Option Int} {b : Bool} :
    keyMatch tid s ⟨tid, s, c, b⟩ = true := by
  simp [keyMatch]

theorem entriesOf_some {d : SeasonsData} {s : Nat} {sid : String}
    (h : entriesOf d s sid ≠ []) :
    ∃ teams, lookupSeason d s = some teams ∧
      entriesOf d s sid = teams.filter (fun t => decide (t.sourceId = some sid)) := by
  cases hls : lookupSeason d s with
  | none =>
    exfalso
    apply h
    simp [entriesOf, hls]
  | some teams =>
    exact ⟨teams, rfl, by simp [entriesOf, hls]⟩

/-- `build_locate`, restated through `entriesOf`. -/
theorem build_filter {d : SeasonsData} {map : TeamIdMap} {st : BuildState}
    {sid : String} {tid : Nat} {s : Nat}
    (hb : build_conference_history d map = .ok st)
    (hwf : mapWF map = true)
    (hm : lookupMap map sid = some tid) (htid : tid ≠ 0) (hsid : sid ≠ "")
    (hlo : 1925 ≤ s) (hhi : s ≤ 2025)
    (hne : entriesOf d s sid ≠ []) :
    ∃ st₀ st₁,
      groupStep map d s st₀ (sid, entriesOf d s sid) = .ok st₁ ∧
      st₀.records.filter (keyMatch tid s) = [] ∧
      st.records.filter (keyMatch tid s) = st₁.records.filter (keyMatch tid s) ∧
      ∀ e ∈ st₁.events, e ∈ st.events := by
  obtain ⟨teams, hls, hent⟩ := entriesOf_some hne
  have hne' : teams.filter (fun t => decide (t.sourceId = some sid)) ≠ [] := hent ▸ hne
  obtain ⟨st₀, st₁, hstep, h0, h1, h2⟩ :=
    build_locate hb hwf hm htid hsid hls hlo hhi hne'
  rw [← hent] at hstep
  exact ⟨st₀, st₁, hstep, h0, h1, h2⟩

/-- A single reported conference: the pass's insert attempts keyed
`(tid, s)` are exactly one record carrying that conference. -/
theorem build_filter_single {d : SeasonsData} {map : TeamIdMap} {st : BuildState}
    {sid : String} {tid : Nat} {s : Nat} {t : TeamEntry}
    (hb : build_conference_history d map = .ok st)
    (hwf : mapWF map = true)
    (hm : lookupMap map sid = some tid) (htid : tid ≠ 0) (hsid : sid ≠ "")
    (hlo : 1925 ≤ s) (hhi : s ≤ 2025)
    (hone : entriesOf d s sid = [t]) :
    st.records.filter (keyMatch tid s) = [⟨tid, s, t.conferenceId, true⟩] := by
  obtain ⟨st₀, st₁, hstep, h0, h1, _⟩ :=
    build_filter hb hwf hm htid hsid hlo hhi (by rw [hone]; simp)
  rw [hone] at hstep
  rw [groupStep_single hm htid] at hstep
  have h₁ := Except.ok.inj hstep
  rw [h1, ← h₁, List.filter_append, h0, List.nil_append]
  simp [keyMatch_mk]

/-- Several reported conferences with an eventual conference found and a
non-eventual value present: the insert attempts keyed `(tid, s)` are one
record per reported value that differs from the eventual conference. -/
theorem build_filter_differs {d : SeasonsData} {map : TeamIdMap} {st : BuildState}
    {sid : String} {tid : Nat} {s : Nat} {ev : Int}
    (hb : build_conference_history d map = .ok st)
    (hwf : mapWF map = true)
    (hm : lookupMap map sid = some tid) (htid : tid ≠ 0) (hsid : sid ≠ "")
    (hlo : 1925 ≤ s) (hhi : s ≤ 2025)
    (hlen : 2 ≤ (entriesOf d s sid).length)
    (hfe : find_eventual_conference sid s d = some ev)
    (hcor : ((entriesOf d s sid).map (fun t => t.conferenceId)).filter
      (fun c => decide (c ≠ some ev)) ≠ []) :
    st.records.filter (keyMatch tid s) =
      (((entriesOf d s sid).map (fun t => t.conferenceId)).filter
        (fun c => decide (c ≠ some ev))).map (fun c => ⟨tid, s, c, true⟩) := by
  obtain ⟨st₀, st₁, hstep, h0, h1, _⟩ :=
    build_filter hb hwf hm htid hsid hlo hhi (by intro hc; rw [hc] at hlen; simp at hlen)
  match hsh : entriesOf d s sid, hlen with
  | t1 :: t2 :: ts, _ =>
    rw [hsh] at hstep
    rw [hsh] at hcor
    rw [groupStep_dup_differs hm htid hfe hcor] at hstep
    have h₁ := Except.ok.inj hstep
    rw [h1, ← h₁, List.filter_append, h0, List.nil_append]
    rw [List.filter_eq_self]
    intro r hr
    rw [List.mem_map] at hr
    obtain ⟨c, _, hc⟩ := hr
    subst hc
    exact keyMatch_mk

/-- Several reported conferences, all equal to the eventual conference: no
insert attempt keyed `(tid, s)`, and the anomaly warning is logged. -/
theorem build_filter_allmatch {d : SeasonsData} {map : TeamIdMap} {st : BuildState}
    {sid : String} {tid : Nat} {s : Nat} {ev : Int}
    (hb : build_conference_history d map = .ok st)
    (hwf : mapWF map = true)
    (hm : lookupMap map sid = some tid) (htid : tid ≠ 0) (hsid : sid ≠ "")
    (hlo : 1925 ≤ s) (hhi : s ≤ 2025)
    (hlen : 2 ≤ (entriesOf d s sid).length)
    (hfe : find_eventual_conference sid s d = some ev)
    (hcor : ((entriesOf d s sid).map (fun t => t.conferenceId)).filter
      (fun c => decide (c ≠ some ev)) = []) :
    st.records.filter (keyMatch tid s) = [] ∧ LogEvent.warnAllMatch sid s ∈ st.events := by
  obtain ⟨st₀, st₁, hstep, h0, h1, h2⟩ :=
    build_filter hb hwf hm htid hsid hlo hhi (by intro hc; rw [hc] at hlen; simp at hlen)
  match hsh : entriesOf d s sid, hlen with
  | t1 :: t2 :: ts, _ =>
    rw [hsh] at hstep
    rw [hsh] at hcor
    rw [groupStep_dup_allmatch hm htid hfe hcor] at hstep
    have h₁ := Except.ok.inj hstep
    constructor
    · rw [h1, ← h₁, h0]
    · refine h2 _ ?_
      rw [← h₁]
      exact List.mem_append_right _ (List.mem_singleton.mpr rfl)

/-- Several reported conferences, no eventual conference found, the pass
succeeded: the sort succeeded, the insert attempts keyed `(tid, s)` are one
record carrying the sort's first element, and the fallback warning is
logged. -/
theorem build_filter_fallback {d : SeasonsData} {map : TeamIdMap} {st : BuildState}
    {sid : String} {tid : Nat} {s : Nat}
    (hb : build_conference_history d map = .ok st)
    (hwf : mapWF map = true)
    (hm : lookupMap map sid = some tid) (htid : tid ≠ 0) (hsid : sid ≠ "")
    (hlo : 1925 ≤ s) (hhi : s ≤ 2025)
    (hlen : 2 ≤ (entriesOf d s sid).length)
    (hfe : find_eventual_conference sid s d = none) :
    ∃ c, pySortedFirst ((entriesOf d s sid).map (fun t => t.conferenceId)) = .ok c ∧
      st.records.filter (keyMatch tid s) = [⟨tid, s, c, true⟩] ∧
      LogEvent.warnNoEventual sid s ∈ st.events := by
  obtain ⟨st₀, st₁, hstep, h0, h1, h2⟩ :=
    build_filter hb hwf hm htid hsid hlo hhi (by intro hc; rw [hc] at hlen; simp at hlen)
  match hsh : entriesOf d s sid, hlen with
  | t1 :: t2 :: ts, _ =>
    rw [hsh] at hstep
    cases hps : pySortedFirst ((t1 :: t2 :: ts).map (fun t => t.conferenceId)) with
    | error e =>
      rw [groupStep_dup_fallback_error hm htid hfe hps] at hstep
      cases hstep
    | ok c =>
      rw [groupStep_dup_fallback hm htid hfe hps] at hstep
      have h₁ := Except.ok.inj hstep
      refine ⟨c, rfl, ?_, ?_⟩
      · rw [h1, ← h₁, List.filter_append, h0, List.nil_append]
        simp [keyMatch_mk]
      · refine h2 _ ?_
        rw [← h₁]
        exact List.mem_append_right _ (List.mem_singleton.mpr rfl)

/-! ### Structure of the gap filler -/

theorem fillSeasonStep_eq {d : SeasonsData} {tid' : Nat} {sid : String}
    {db : List HistoryRecord} {s' : Nat} :
    fillSeasonStep d tid' sid db s' = db ∨
    ((seasonsAppeared d sid).contains s' = false ∧
      fillSeasonStep d tid' sid db s' = insertDB db ⟨tid', s', none, false⟩) := by
  unfold fillSeasonStep insertDB
  split
  · exact Or.inl rfl
  · rename_i hcon
    exact Or.inr ⟨Bool.not_eq_true _ ▸ eq_false_of_ne_true hcon, rfl⟩

theorem fillSeasonStep_pres_amo {d : SeasonsData} {tid' : Nat} {sid : String}
    {db : List HistoryRecord} {s' : Nat} (h : AtMostOne db) :
    AtMostOne (fillSeasonStep d tid' sid db s') := by
  rcases @fillSeasonStep_eq d tid' sid db s' with heq | ⟨_, heq⟩
  · rw [heq]; exact h
  · rw [heq]; exact insertDB_pres_amo h

theorem fill_fold_spec (d : SeasonsData) (tid' : Nat) (sid : String) :
    ∀ (seasons : List Nat) (db : List HistoryRecord),
    ∃ A, seasons.foldl (fillSeasonStep d tid' sid) db = db ++ A ∧
      ∀ r ∈ A, r.team_id = tid' ∧ r.conference_id = none ∧ r.existed = false ∧
        r.season ∈ seasons ∧ (seasonsAppeared d sid).contains r.season = false ∧
        hasKey db tid' r.season = false := by
  intro seasons
  induction seasons with
  | nil => intro db; exact ⟨[], by simp, by simp⟩
  | cons s' rest ih =>
    intro db
    rw [List.foldl_cons]
    rcases @fillSeasonStep_eq d tid' sid db s' with heq | ⟨hcon, heq⟩
    · obtain ⟨A, hA, hq⟩ := ih db
      rw [heq]
      refine ⟨A, hA, ?_⟩
      intro r hr
      obtain ⟨q1, q2, q3, q4, q5, q6⟩ := hq r hr
      exact ⟨q1, q2, q3, List.mem_cons_of_mem _ q4, q5, q6⟩
    · rw [heq]
      unfold insertDB
      split
      · obtain ⟨A, hA, hq⟩ := ih db
        refine ⟨A, hA, ?_⟩
        intro r hr
        obtain ⟨q1, q2, q3, q4, q5, q6⟩ := hq r hr
        exact ⟨q1, q2, q3, List.mem_cons_of_mem _ q4, q5, q6⟩
      · rename_i hk
        obtain ⟨A, hA, hq⟩ := ih (db ++ [⟨tid', s', none, false⟩])
        refine ⟨⟨tid', s', none, false⟩ :: A, by rw [hA, List.append_assoc]; rfl, ?_⟩
        intro r hr
        rcases List.mem_cons.mp hr with h' | h'
        · subst h'
          refine ⟨rfl, rfl, rfl, List.mem_cons_self _ _, hcon, ?_⟩
          simpa using hk
        · obtain ⟨q1, q2, q3, q4, q5, q6⟩ := hq r h'
          rw [hasKey_append] at q6
          refine ⟨q1, q2, q3, List.mem_cons_of_mem _ q4, q5, ?_⟩
          exact (Bool.or_eq_false_iff.mp q6).1
theorem firstSeason_eq {d : SeasonsData} {sid : String} {a : Nat} {rest : List Nat}
    (h : seasonsAppeared d sid = a :: rest) :
    firstSeason d sid = rest.foldl Nat.min a := by
  rw [firstSeason, h]

theorem lastSeason_eq {d : SeasonsData} {sid : String} {a : Nat} {rest : List Nat}
    (h : seasonsAppeared d sid = a :: rest) :
    lastSeason d sid = rest.foldl Nat.max a := by
  rw [lastSeason, h]

theorem fillTeam_eq_nil {d : SeasonsData} {tid' : Nat} {sid : String}
    {db : List HistoryRecord} (hap : seasonsAppeared d sid = []) :
    fillTeam d tid' sid db = db := by
  unfold fillTeam
  rw [hap]

theorem fillTeam_eq_cons {d : SeasonsData} {tid' : Nat} {sid : String}
    {db : List HistoryRecord} {a : Nat} {rest : List Nat}
    (hap : seasonsAppeared d sid = a :: rest) :
    fillTeam d tid' sid db =
      (gapRange (rest.foldl Nat.min a) (rest.foldl Nat.max a)).foldl
        (fillSeasonStep d tid' sid) db := by
  unfold fillTeam
  rw [hap]

theorem fillTeam_spec (d : SeasonsData) (tid' : Nat) (sid : String)
    (db : List HistoryRecord) :
    ∃ A, fillTeam d tid' sid db = db ++ A ∧
      ∀ r ∈ A, r.team_id = tid' ∧ r.conference_id = none ∧ r.existed = false ∧
        (seasonsAppeared d sid).contains r.season = false ∧
        firstSeason d sid ≤ r.season ∧ r.season ≤ lastSeason d sid ∧
        seasonsAppeared d sid ≠ [] ∧
        hasKey db tid' r.season = false := by
  cases hap : seasonsAppeared d sid with
  | nil => exact ⟨[], by rw [fillTeam_eq_nil hap]; simp, by simp⟩
  | cons a rest =>
    obtain ⟨A, hA, hq⟩ :=
      fill_fold_spec d tid' sid (gapRange (rest.foldl Nat.min a) (rest.foldl Nat.max a)) db
    refine ⟨A, by rw [fillTeam_eq_cons hap]; exact hA, ?_⟩
    intro r hr
    obtain ⟨q1, q2, q3, q4, q5, q6⟩ := hq r hr
    obtain ⟨hg1, hg2⟩ := mem_gapRange.mp q4
    refine ⟨q1, q2, q3, hap ▸ q5, ?_, ?_, by simp, q6⟩
    · rw [firstSeason_eq hap]; exact hg1
    · rw [lastSeason_eq hap]; exact hg2

theorem hasKey_fillTeam_mono {d : SeasonsData} {tid' : Nat} {sid : String}
    {db : List HistoryRecord} {tid s : Nat} (h : hasKey db tid s = true) :
    hasKey (fillTeam d tid' sid db) tid s = true := by
  obtain ⟨A, hA, _⟩ := fillTeam_spec d tid' sid db
  rw [hA, hasKey_append, h, Bool.true_or]

theorem fold_fillSeasonStep_pres_amo {d : SeasonsData} {tid' : Nat} {sid : String} :
    ∀ (seasons : List Nat) (db : List HistoryRecord),
    AtMostOne db → AtMostOne (seasons.foldl (fillSeasonStep d tid' sid) db) := by
  intro seasons
  induction seasons with
  | nil => intro db h; exact h
  | cons s' ss ih =>
    intro db h
    rw [List.foldl_cons]
    exact ih _ (fillSeasonStep_pres_amo h)

theorem fillTeam_pres_amo {d : SeasonsData} {tid' : Nat} {sid : String}
    {db : List HistoryRecord} (h : AtMostOne db) : AtMostOne (fillTeam d tid' sid db) := by
  cases hap : seasonsAppeared d sid with
  | nil => rw [fillTeam_eq_nil hap]; exact h
  | cons a rest =>
    rw [fillTeam_eq_cons hap]
    exact fold_fillSeasonStep_pres_amo _ _ h

theorem fill_pairs_spec (d : SeasonsData) :
    ∀ (pairs : List (Nat × String)) (db : List HistoryRecord),
    ∃ A, pairs.foldl (fun db p => fillTeam d p.1 p.2 db) db = db ++ A ∧
      ∀ r ∈ A, r.conference_id = none ∧ r.existed = false ∧
        (∃ sid', (r.team_id, sid') ∈ pairs ∧
          (seasonsAppeared d sid').contains r.season = false ∧
          firstSeason d sid' ≤ r.season ∧ r.season ≤ lastSeason d sid' ∧
          seasonsAppeared d sid' ≠ []) ∧
        hasKey db r.team_id r.season = false := by
  intro pairs
  induction pairs with
  | nil => intro db; exact ⟨[], by simp, by simp⟩
  | cons p rest ih =>
    intro db
    rw [List.foldl_cons]
    obtain ⟨A1, hA1, hq1⟩ := fillTeam_spec d p.1 p.2 db
    rw [hA1]
    obtain ⟨A2, hA2, hq2⟩ := ih (db ++ A1)
    refine ⟨A1 ++ A2, by rw [hA2, List.append_assoc], ?_⟩
    intro r hr
    rcases List.mem_append.mp hr with h' | h'
    · obtain ⟨q1, q2, q3, q4, q5, q6, q7, q8⟩ := hq1 r h'
      refine ⟨q2, q3, ⟨p.2, ?_, q4, q5, q6, q7⟩, ?_⟩
      · rw [q1]
        simp
      · rw [q1]
        exact q8
    · obtain ⟨q1, q2, ⟨sid', hm', q3, q4, q5, q6⟩, q7⟩ := hq2 r h'
      refine ⟨q1, q2, ⟨sid', List.mem_cons_of_mem _ hm', q3, q4, q5, q6⟩, ?_⟩
      rw [hasKey_append] at q7
      exact (Bool.or_eq_false_iff.mp q7).1

theorem hasKey_fold_fillSeasonStep_mono {d : SeasonsData} {tid' : Nat} {sid : String}
    {seasons : List Nat} {db : List HistoryRecord} {tid s : Nat}
    (h : hasKey db tid s = true) :
    hasKey (seasons.foldl (fillSeasonStep d tid' sid) db) tid s = true := by
  obtain ⟨A, hA, _⟩ := fill_fold_spec d tid' sid seasons db
  rw [hA, hasKey_append, h, Bool.true_or]

theorem hasKey_fold_fillTeam_mono {d : SeasonsData} {pairs : List (Nat × String)}
    {db : List HistoryRecord} {tid s : Nat} (h : hasKey db tid s = true) :
    hasKey (pairs.foldl (fun db p => fillTeam d p.1 p.2 db) db) tid s = true := by
  obtain ⟨A, hA, _⟩ := fill_pairs_spec d pairs db
  rw [hA, hasKey_append, h, Bool.true_or]

theorem fold_fillTeam_pres_amo {d : SeasonsData} :
    ∀ (pairs : List (Nat × String)) (db : List HistoryRecord),
    AtMostOne db → AtMostOne (pairs.foldl (fun db p => fillTeam d p.1 p.2 db) db) := by
  intro pairs
  induction pairs with
  | nil => intro db h; exact h
  | cons p rest ih =>
    intro db h
    rw [List.foldl_cons]
    exact ih _ (fillTeam_pres_amo h)

theorem fill_pres_amo {d : SeasonsData} {map : TeamIdMap} {db : List HistoryRecord}
    (h : AtMostOne db) : AtMostOne (fill_gap_years d map db) :=
  fold_fillTeam_pres_amo (idToSource map) db h

theorem hasKey_fill_mono {d : SeasonsData} {map : TeamIdMap} {db : List HistoryRecord}
    {tid s : Nat} (h : hasKey db tid s = true) :
    hasKey (fill_gap_years d map db) tid s = true :=
  hasKey_fold_fillTeam_mono h

/-- Processing the pair `(tid, sid)` guarantees a record for every season of
the team's gap range in which the team did not appear. -/
theorem fill_hasKey {d : SeasonsData} {map : TeamIdMap} {db : List HistoryRecord}
    {tid : Nat} {sid : String} {s : Nat}
    (hpair : (tid, sid) ∈ idToSource map)
    (hap : seasonsAppeared d sid ≠ [])
    (h1 : firstSeason d sid ≤ s) (h2 : s ≤ lastSeason d sid)
    (hcon : (seasonsAppeared d sid).contains s = false) :
    hasKey (fill_gap_years d map db) tid s = true := by
  unfold fill_gap_years
  obtain ⟨P1, P2, hsp⟩ := List.append_of_mem hpair
  rw [hsp, List.foldl_append, List.foldl_cons]
  apply hasKey_fold_fillTeam_mono
  cases hapc : seasonsAppeared d sid with
  | nil => exact absurd hapc hap
  | cons a rest =>
    rw [fillTeam_eq_cons hapc]
    have hs_mem : s ∈ gapRange (rest.foldl Nat.min a) (rest.foldl Nat.max a) := by
      rw [mem_gapRange]
      exact ⟨by rw [← firstSeason_eq hapc]; exact h1, by rw [← lastSeason_eq hapc]; exact h2⟩
    obtain ⟨G1, G2, hgs⟩ := List.append_of_mem hs_mem
    rw [hgs, List.foldl_append, List.foldl_cons]
    apply hasKey_fold_fillSeasonStep_mono
    rw [hapc] at hcon
    unfold fillSeasonStep
    rw [hapc, hcon]
    simp only [Bool.false_eq_true, if_false]
    split
    · rename_i hk
      exact hk
    · rw [hasKey_append]
      have : hasKey [(⟨tid, s, none, false⟩ : HistoryRecord)] tid s = true := by
        simp [hasKey, keyMatch]
      rw [this, Bool.or_true]

theorem mem_setAssoc {acc : List (Nat × String)} {k : Nat} {v : String}
    {p : Nat × String} (h : p ∈ setAssoc acc k v) : p = (k, v) ∨ p ∈ acc := by
  induction acc with
  | nil =>
    simp only [setAssoc, List.mem_singleton] at h
    exact Or.inl h
  | cons q rest ih =>
    obtain ⟨k', v'⟩ := q
    rw [setAssoc] at h
    split at h
    · rcases List.mem_cons.mp h with h' | h'
      · exact Or.inl h'
      · exact Or.inr (List.mem_cons_of_mem _ h')
    · rcases List.mem_cons.mp h with h' | h'
      · exact Or.inr (h' ▸ List.mem_cons_self _ _)
      · rcases ih h' with h'' | h''
        · exact Or.inl h''
        · exact Or.inr (List.mem_cons_of_mem _ h'')

theorem idToSource_sub {map : TeamIdMap} :
    ∀ p ∈ idToSource map, (p.2, p.1) ∈ map := by
  have main : ∀ (m : List (String × Nat)) (acc : List (Nat × String))
      (Q : Nat × String → Prop),
      (∀ q ∈ acc, Q q) → (∀ q ∈ m, Q (q.2, q.1)) →
      ∀ p ∈ m.foldl (fun acc kv => setAssoc acc kv.2 kv.1) acc, Q p := by
    intro m
    induction m with
    | nil => intro acc Q hacc _ p hp; exact hacc p hp
    | cons kv rest ih =>
      intro acc Q hacc hm p hp
      rw [List.foldl_cons] at hp
      refine ih _ Q ?_ (fun q hq => hm q (List.mem_cons_of_mem _ hq)) p hp
      intro q hq
      rcases mem_setAssoc hq with h' | h'
      · rw [h']
        exact hm kv (List.mem_cons_self _ _)
      · exact hacc q h'
  intro p hp
  exact main map [] (fun q => (q.2, q.1) ∈ map) (by simp)
    (fun q hq => by simpa using hq) p hp

theorem setAssoc_not_mem {acc : List (Nat × String)} {k : Nat} {v : String}
    (h : k ∉ acc.map Prod.fst) : setAssoc acc k v = acc ++ [(k, v)] := by
  induction acc with
  | nil => simp [setAssoc]
  | cons q rest ih =>
    obtain ⟨k', v'⟩ := q
    rw [List.map_cons, List.mem_cons] at h
    push_neg at h
    rw [setAssoc, if_neg (fun hc : k' = k => h.1 hc.symm), List.cons_append]
    rw [ih h.2]

theorem idToSource_eq {map : TeamIdMap} (hn : (map.map Prod.snd).Nodup) :
    idToSource map = map.map (fun p => (p.2, p.1)) := by
  have main : ∀ (m : List (String × Nat)) (acc : List (Nat × String)),
      (m.map Prod.snd).Nodup → (∀ p ∈ m, p.2 ∉ acc.map Prod.fst) →
      m.foldl (fun acc kv => setAssoc acc kv.2 kv.1) acc =
        acc ++ m.map (fun p => (p.2, p.1)) := by
    intro m
    induction m with
    | nil => intro acc _ _; simp
    | cons kv rest ih =>
      intro acc hn hdis
      rw [List.foldl_cons, setAssoc_not_mem (hdis kv (List.mem_cons_self _ _))]
      rw [List.map_cons, List.nodup_cons] at hn
      rw [ih (acc ++ [(kv.2, kv.1)]) hn.2 ?_]
      · simp
      · intro p hp
        rw [List.map_append, List.mem_append]
        push_neg
        refine ⟨hdis p (List.mem_cons_of_mem _ hp), ?_⟩
        simp only [List.map_cons, List.map_nil, List.mem_singleton]
        intro hc
        exact hn.1 (List.mem_map.mpr ⟨p, hp, hc⟩)
  exact main map [] hn (by simp)

theorem mem_idToSource {map : TeamIdMap} {sid : String} {tid : Nat}
    (hwf : mapWF map = true) (h : (sid, tid) ∈ map) : (tid, sid) ∈ idToSource map := by
  have hn : (map.map Prod.snd).Nodup :=
    of_decide_eq_true ((Bool.and_eq_true _ _).mp hwf).2
  rw [idToSource_eq hn]
  exact List.mem_map.mpr ⟨(sid, tid), h, rfl⟩

/-! ### Remaining helpers -/

theorem hasKey_iff_filter_ne {db : List HistoryRecord} {tid s : Nat} :
    hasKey db tid s = true ↔ db.filter (keyMatch tid s) ≠ [] := by
  rw [hasKey, List.any_eq_true]
  constructor
  · rintro ⟨r, hr, hk⟩ hc
    have : r ∈ db.filter (keyMatch tid s) := List.mem_filter.mpr ⟨hr, hk⟩
    rw [hc] at this
    simp at this
  · intro h
    rcases List.exists_mem_of_ne_nil _ h with ⟨r, hr⟩
    have := List.mem_filter.mp hr
    exact ⟨r, this.1, this.2⟩

theorem contains_seasonsAppeared_false {d : SeasonsData} {sid : String} {s : Nat}
    (h : appearsIn d sid s = false) : (seasonsAppeared d sid).contains s = false := by
  have hmem : s ∉ seasonsAppeared d sid := by
    intro hc
    rw [(mem_seasonsAppeared.mp hc).1] at h
    cases h
  simp [List.elem_eq_mem, hmem]

theorem mem_insertDB {db : List HistoryRecord} {r x : HistoryRecord}
    (h : x ∈ insertDB db r) : x ∈ db ∨ x = r := by
  unfold insertDB at h
  split at h
  · exact Or.inl h
  · rcases List.mem_append.mp h with h' | h'
    · exact Or.inl h'
    · exact Or.inr (List.mem_singleton.mp h')

theorem mem_applyInserts {db rs : List HistoryRecord} {x : HistoryRecord}
    (h : x ∈ applyInserts db rs) : x ∈ db ∨ x ∈ rs := by
  induction rs generalizing db with
  | nil => exact Or.inl h
  | cons r rest ih =>
    rcases ih h with h' | h'
    · rcases mem_insertDB h' with h'' | h''
      · exact Or.inl h''
      · exact Or.inr (h'' ▸ List.mem_cons_self _ _)
    · exact Or.inr (List.mem_cons_of_mem _ h')

theorem foldl_int_min_le_init : ∀ (l : List Int) (a : Int), l.foldl min a ≤ a := by
  intro l
  induction l with
  | nil => intro a; exact le_refl a
  | cons x rest ih =>
    intro a
    rw [List.foldl_cons]
    exact le_trans (ih (min a x)) (min_le_left a x)

theorem foldl_int_min_le_mem : ∀ (l : List Int) (a x : Int), x ∈ l → l.foldl min a ≤ x := by
  intro l
  induction l with
  | nil => intro a x hx; simp at hx
  | cons y rest ih =>
    intro a x hx
    rw [List.foldl_cons]
    rcases List.mem_cons.mp hx with h | h
    · subst h
      exact le_trans (foldl_int_min_le_init _ _) (min_le_right a x)
    · exact ih _ x h

theorem foldl_int_min_mem : ∀ (l : List Int) (a : Int), l.foldl min a = a ∨ l.foldl min a ∈ l := by
  intro l
  induction l with
  | nil => intro a; exact Or.inl rfl
  | cons x rest ih =>
    intro a
    rw [List.foldl_cons]
    rcases ih (min a x) with h | h
    · rw [h]
      rcases min_choice a x with h' | h'
      · exact Or.inl h'
      · exact Or.inr (by rw [h']; exact List.mem_cons_self x rest)
    · exact Or.inr (List.mem_cons_of_mem _ h)

theorem pySortedFirst_ok_of_all_some {confs : List (Option Int)} (hne : confs ≠ [])
    (hall : ∀ c ∈ confs, c.isSome = true) : ∃ c, pySortedFirst confs = .ok c := by
  unfold pySortedFirst
  have hnone : confs.any (fun c => c.isNone) = false := by
    rw [List.any_eq_false]
    intro c hc
    have := hall c hc
    cases c with
    | none => simp at this
    | some x => simp
  rw [if_neg (by rw [hnone]; simp)]
  match confs, hne, hall with
  | [c], _, _ => exact ⟨c, rfl⟩
  | c1 :: c2 :: cs, _, hall =>
    have h1 := hall c1 (List.mem_cons_self _ _)
    obtain ⟨x, hx⟩ := Option.isSome_iff_exists.mp h1
    cases hfm : (c1 :: c2 :: cs).filterMap id with
    | nil =>
      exfalso
      have : x ∈ (c1 :: c2 :: cs).filterMap id :=
        List.mem_filterMap.mpr ⟨c1, List.mem_cons_self _ _, by rw [hx]; rfl⟩
      rw [hfm] at this
      simp at this
    | cons m ms => exact ⟨some (ms.foldl min m), rfl⟩

theorem pySortedFirst_min {confs : List (Option Int)} {c : Option Int}
    (hlen : 2 ≤ confs.length)
    (hall : ∀ c' ∈ confs, c'.isSome = true)
    (h : pySortedFirst confs = .ok c) :
    ∃ m, c = some m ∧ some m ∈ confs ∧ ∀ x : Int, some x ∈ confs → m ≤ x := by
  unfold pySortedFirst at h
  split at h
  · cases h
  · match confs, hlen, hall, h with
    | c1 :: c2 :: cs, _, hall, h =>
      cases hfm : (c1 :: c2 :: cs).filterMap id with
      | nil =>
        have h1 := hall c1 (List.mem_cons_self _ _)
        obtain ⟨x, hx⟩ := Option.isSome_iff_exists.mp h1
        have : x ∈ (c1 :: c2 :: cs).filterMap id :=
          List.mem_filterMap.mpr ⟨c1, List.mem_cons_self _ _, by rw [hx]; rfl⟩
        rw [hfm] at this
        simp at this
      | cons m ms =>
        rw [hfm] at h
        cases h
        refine ⟨ms.foldl min m, rfl, ?_, ?_⟩
        · rcases foldl_int_min_mem ms m with h' | h'
          · rw [h']
            have : m ∈ (c1 :: c2 :: cs).filterMap id := by rw [hfm]; exact List.mem_cons_self _ _
            obtain ⟨a, ha, ha2⟩ := List.mem_filterMap.mp this
            rw [show a = some m from ha2] at ha
            exact ha
          · have : ms.foldl min m ∈ (c1 :: c2 :: cs).filterMap id := by
              rw [hfm]
              exact List.mem_cons_of_mem _ h'
            obtain ⟨a, ha, ha2⟩ := List.mem_filterMap.mp this
            rw [show a = some (ms.foldl min m) from ha2] at ha
            exact ha
        · intro x hx
          have : x ∈ (c1 :: c2 :: cs).filterMap id :=
            List.mem_filterMap.mpr ⟨some x, hx, rfl⟩
          rw [hfm] at this
          rcases List.mem_cons.mp this with h' | h'
          · rw [h']
            exact foldl_int_min_le_init ms m
          · exact foldl_int_min_le_mem ms m x h'

/-! ### The collection phase -/

theorem collectStep_eq {fetch : Nat → Except String (List TeamEntry)}
    {st : CollectState} {s : Nat} :
    collectStep fetch st s =
      { data := st.data ++ (match fetch s with
          | .ok ts => if ts.isEmpty then [] else [(s, ts)]
          | .error _ => [])
        logs := st.logs ++ (match fetch s with
          | .ok _ => []
          | .error e => [.fetchError s e])
        fetched := st.fetched ++ [s] } := by
  cases hf : fetch s with
  | ok ts =>
    by_cases he : ts.isEmpty
    · simp [collectStep, fetch_teams_for_season, hf, he]
    · simp [collectStep, fetch_teams_for_season, hf, he]
  | error e => simp [collectStep, fetch_teams_for_season, hf]

theorem collect_fold_spec (fetch : Nat → Except String (List TeamEntry)) :
    ∀ (l : List Nat) (st : CollectState),
    l.foldl (collectStep fetch) st =
      { data := st.data ++ l.filterMap (fun s => match fetch s with
          | .ok ts => if ts.isEmpty then none else some (s, ts)
          | .error _ => none)
        logs := st.logs ++ l.filterMap (fun s => match fetch s with
          | .ok _ => none
          | .error e => some (.fetchError s e))
        fetched := st.fetched ++ l } := by
  intro l
  induction l with
  | nil =>
    intro st
    cases st
    simp
  | cons s rest ih =>
    intro st
    rw [List.foldl_cons, collectStep_eq, ih]
    cases hf : fetch s with
    | ok ts =>
      by_cases he : ts = []
      · simp [List.filterMap_cons, hf, he]
      · simp [List.filterMap_cons, hf, he]
    | error e => simp [List.filterMap_cons, hf]

theorem collect_eq (fetch : Nat → Except String (List TeamEntry)) :
    collect_all_seasons_data fetch =
      { data := seasonRange.filterMap (fun s => match fetch s with
          | .ok ts => if ts.isEmpty then none else some (s, ts)
          | .error _ => none)
        logs := seasonRange.filterMap (fun s => match fetch s with
          | .ok _ => none
          | .error e => some (.fetchError s e))
        fetched := seasonRange } := by
  unfold collect_all_seasons_data
  rw [collect_fold_spec]
  simp

theorem lookupSeason_filterMap_not_mem {f : Nat → Option (Nat × List TeamEntry)}
    (hf : ∀ s' p, f s' = some p → p.1 = s') :
    ∀ (l : List Nat) (s : Nat), s ∉ l → lookupSeason (l.filterMap f) s = none := by
  intro l
  induction l with
  | nil => intro s _; rfl
  | cons a rest ih =>
    intro s hs
    rw [List.mem_cons] at hs
    push_neg at hs
    rw [List.filterMap_cons]
    cases hfa : f a with
    | none => exact ih s hs.2
    | some p =>
      rw [lookupSeason, if_neg ?_]
      · exact ih s hs.2
      · rw [hf a p hfa]
        exact fun hc => hs.1 hc.symm

theorem lookupSeason_filterMap_mem {f : Nat → Option (Nat × List TeamEntry)}
    (hf : ∀ s' p, f s' = some p → p.1 = s') :
    ∀ (l : List Nat) (s : Nat), l.Nodup → s ∈ l →
    lookupSeason (l.filterMap f) s = (f s).map Prod.snd := by
  intro l
  induction l with
  | nil => intro s _ hs; simp at hs
  | cons a rest ih =>
    intro s hnd hs
    rw [List.nodup_cons] at hnd
    rw [List.filterMap_cons]
    rcases List.mem_cons.mp hs with h | h
    · subst h
      cases hfa : f s with
      | none =>
        rw [lookupSeason_filterMap_not_mem hf rest s hnd.1]
        simp
      | some p =>
        have hp := hf s p hfa
        rw [lookupSeason]
        rw [if_pos hp]
        obtain ⟨p1, p2⟩ := p
        simp
    · have ha : a ≠ s := by
        intro hc
        subst hc
        exact hnd.1 h
      cases hfa : f a with
      | none => exact ih s hnd.2 h
      | some p =>
        rw [lookupSeason, if_neg (by rw [hf a p hfa]; exact ha)]
        exact ih s hnd.2 h

theorem collect_keypres (fetch : Nat → Except String (List TeamEntry)) :
    ∀ s' p, (match fetch s' with
      | .ok ts => if ts.isEmpty then none else some (s', ts)
      | .error _ => none) = some p → p.1 = s' := by
  intro s' p h
  cases hf : fetch s' with
  | ok ts =>
    simp only [hf] at h
    split at h
    · cases h
    · cases h
      rfl
  | error e =>
    simp only [hf] at h
    cases h

theorem lookup_collect_data {fetch : Nat → Except String (List TeamEntry)} {s : Nat}
    (h1 : 1925 ≤ s) (h2 : s ≤ 2025) :
    lookupSeason (collect_all_seasons_data fetch).data s =
      match fetch s with
      | .ok ts => if ts.isEmpty then none else some ts
      | .error _ => none := by
  rw [collect_eq]
  rw [lookupSeason_filterMap_mem (collect_keypres fetch) seasonRange s nodup_seasonRange
    (mem_seasonRange.mpr ⟨h1, h2⟩)]
  cases hf : fetch s with
  | ok ts =>
    by_cases he : ts.isEmpty
    · simp [he]
    · simp [he]
  | error e => simp

theorem collect_data_mem {fetch : Nat → Except String (List TeamEntry)}
    {p : Nat × List TeamEntry} (h : p ∈ (collect_all_seasons_data fetch).data) :
    fetch p.1 = .ok p.2 ∧ p.2 ≠ [] := by
  rw [collect_eq] at h
  obtain ⟨a, _, ha⟩ := List.mem_filterMap.mp h
  cases hf : fetch a with
  | ok ts =>
    simp only [hf] at ha
    split at ha
    · cases ha
    · rename_i hne
      cases ha
      exact ⟨hf, by simpa [List.isEmpty_iff] using hne⟩
  | error e =>
    simp only [hf] at ha
    cases ha

theorem collect_logs_mem {fetch : Nat → Except String (List TeamEntry)} {s : Nat}
    {e : String} (hs : s ∈ seasonRange) (hf : fetch s = .error e) :
    FetchLog.fetchError s e ∈ (collect_all_seasons_data fetch).logs := by
  rw [collect_eq]
  exact List.mem_filterMap.mpr ⟨s, hs, by rw [hf]⟩

theorem collect_fetched (fetch : Nat → Except String (List TeamEntry)) :
    (collect_all_seasons_data fetch).fetched = seasonRange := by
  rw [collect_eq]

/-! ### Success of the pass, warning dedup, record provenance -/

theorem groupStep_unmapped {map : TeamIdMap} {d : SeasonsData} {season : Nat}
    {st : BuildState} {g : String × List TeamEntry}
    (hlm : lookupMap map g.1 = none) :
    groupStep map d season st g = .ok (unmappedUpdate st g.1 season) := by
  obtain ⟨sid, entries⟩ := g
  simp only [groupStep, hlm]

theorem groupStep_zero {map : TeamIdMap} {d : SeasonsData} {season : Nat}
    {st : BuildState} {g : String × List TeamEntry}
    (hlm : lookupMap map g.1 = some 0) :
    groupStep map d season st g = .ok (unmappedUpdate st g.1 season) := by
  obtain ⟨sid, entries⟩ := g
  simp [groupStep, hlm]

theorem lookupSeason_mem {d : SeasonsData} {s : Nat} {ts : List TeamEntry}
    (h : lookupSeason d s = some ts) : (s, ts) ∈ d := by
  induction d with
  | nil => simp [lookupSeason] at h
  | cons p rest ih =>
    obtain ⟨k, v⟩ := p
    rw [lookupSeason] at h
    split at h
    · rename_i hk
      cases h
      subst hk
      exact List.mem_cons_self _ _
    · exact List.mem_cons_of_mem _ (ih h)

theorem groupStep_ok_exists {map : TeamIdMap} {d : SeasonsData} {s : Nat}
    {st : BuildState} {g : String × List TeamEntry}
    (hne : g.2 ≠ []) (hall : ∀ t ∈ g.2, (t.conferenceId).isSome = true) :
    ∃ st', groupStep map d s st g = .ok st' := by
  obtain ⟨sid, entries⟩ := g
  cases hlm : lookupMap map sid with
  | none => exact ⟨_, groupStep_unmapped hlm⟩
  | some tid =>
    by_cases htid : tid = 0
    · subst htid
      exact ⟨_, groupStep_zero hlm⟩
    · match entries, hne, hall with
      | [t], _, _ => exact ⟨_, groupStep_single hlm htid⟩
      | t1 :: t2 :: ts, _, hall =>
        cases hfe : find_eventual_conference sid s d with
        | none =>
          have hconfs_ne : (t1 :: t2 :: ts).map (fun t => t.conferenceId) ≠ [] := by simp
          have hconfs_all : ∀ c ∈ (t1 :: t2 :: ts).map (fun t => t.conferenceId),
              c.isSome = true := by
            intro c hc
            obtain ⟨t, ht, hct⟩ := List.mem_map.mp hc
            rw [← hct]
            exact hall t ht
          obtain ⟨c, hps⟩ := pySortedFirst_ok_of_all_some hconfs_ne hconfs_all
          exact ⟨_, groupStep_dup_fallback hlm htid hfe hps⟩
        | some ev =>
          by_cases hcor : ((t1 :: t2 :: ts).map (fun t => t.conferenceId)).filter
              (fun c => decide (c ≠ some ev)) = []
          · exact ⟨_, groupStep_dup_allmatch hlm htid hfe hcor⟩
          · exact ⟨_, groupStep_dup_differs hlm htid hfe hcor⟩

theorem build_ok_of_all_some {d : SeasonsData} {map : TeamIdMap}
    (hd : ∀ p ∈ d, ∀ t ∈ p.2, (t.conferenceId).isSome = true) :
    ∃ st, build_conference_history d map = .ok st := by
  unfold build_conference_history
  apply foldE_ok
  intro st a _
  cases hls : lookupSeason d a with
  | none => exact ⟨st, seasonStep_eq_none hls⟩
  | some teams =>
    rw [seasonStep_eq_some hls]
    apply foldE_ok
    intro st0 g hg
    obtain ⟨hval, hne⟩ := mem_groupBySource_char hg
    apply groupStep_ok_exists hne
    intro t ht
    rw [hval] at ht
    exact hd (a, teams) (lookupSeason_mem hls) t (List.mem_filter.mp ht).1

theorem runImport_ok {fetch : Nat → Except String (List TeamEntry)} {map : TeamIdMap}
    (hall : ∀ s ts, fetch s = .ok ts → ∀ t ∈ ts, (t.conferenceId).isSome = true) :
    exceptOkB (runImport fetch map) = true := by
  obtain ⟨st, hb⟩ := @build_ok_of_all_some (collect_all_seasons_data fetch).data map
    (fun p hp t ht => hall p.1 p.2 (collect_data_mem hp).1 t ht)
  simp only [runImport]
  rw [hb]
  rfl

theorem unmappedUpdate_warncount {st : BuildState} {sid0 : String} {season : Nat}
    {sid : String}
    (hp : st.events.countP (isNoTeamIdWarn sid) = (if sid ∈ st.noId then 1 else 0)) :
    (unmappedUpdate st sid0 season).events.countP (isNoTeamIdWarn sid) =
      (if sid ∈ (unmappedUpdate st sid0 season).noId then 1 else 0) := by
  unfold unmappedUpdate
  split
  · exact hp
  · rename_i hcon
    have hnm : sid0 ∉ st.noId := by
      intro hc
      exact hcon (by simp [List.elem_eq_mem, hc])
    simp only [List.countP_append]
    by_cases hss : sid0 = sid
    · subst hss
      rw [if_neg hnm] at hp
      rw [hp]
      have hcnt : List.countP (isNoTeamIdWarn sid0) [LogEvent.warnNoTeamId sid0 season] = 1 := by
        simp [List.countP_cons, isNoTeamIdWarn]
      rw [hcnt, if_pos (by simp)]
    · have hcnt : List.countP (isNoTeamIdWarn sid) [LogEvent.warnNoTeamId sid0 season] = 0 := by
        simp [List.countP_cons, isNoTeamIdWarn, hss]
      rw [hcnt, hp]
      have hmm : (sid ∈ st.noId ++ [sid0]) ↔ sid ∈ st.noId := by
        rw [List.mem_append, List.mem_singleton]
        constructor
        · rintro (h | h)
          · exact h
          · exact absurd h.symm hss
        · exact Or.inl
      by_cases hin : sid ∈ st.noId
      · rw [if_pos hin, if_pos (hmm.mpr hin)]
      · rw [if_neg hin, if_neg (fun hc => hin (hmm.mp hc))]

theorem groupStep_warncount {map : TeamIdMap} {d : SeasonsData} {season : Nat}
    {st st' : BuildState} {g : String × List TeamEntry} {sid : String}
    (h : groupStep map d season st g = .ok st')
    (hp : st.events.countP (isNoTeamIdWarn sid) = (if sid ∈ st.noId then 1 else 0)) :
    st'.events.countP (isNoTeamIdWarn sid) = (if sid ∈ st'.noId then 1 else 0) := by
  obtain ⟨sid0, entries⟩ := g
  simp only [groupStep] at h
  split at h
  · cases h
    exact unmappedUpdate_warncount hp
  · split at h
    · cases h
      exact unmappedUpdate_warncount hp
    · split at h
      · cases h
        exact hp
      · split at h
        · split at h
          · cases h
          · cases h
            simp only [List.countP_append]
            have hcnt : List.countP (isNoTeamIdWarn sid)
                [LogEvent.warnNoEventual sid0 season] = 0 := by
              simp [List.countP_cons, isNoTeamIdWarn]
            rw [hcnt, hp, Nat.add_zero]
        · split at h
          · cases h
            simp only [List.countP_append]
            have hcnt : List.countP (isNoTeamIdWarn sid)
                [LogEvent.warnAllMatch sid0 season] = 0 := by
              simp [List.countP_cons, isNoTeamIdWarn]
            rw [hcnt, hp, Nat.add_zero]
          · cases h
            exact hp

theorem build_warncount {d : SeasonsData} {map : TeamIdMap} {st : BuildState}
    (hb : build_conference_history d map = .ok st) (sid : String) :
    st.events.countP (isNoTeamIdWarn sid) = (if sid ∈ st.noId then 1 else 0) := by
  refine foldE_pres
    (fun stx => stx.events.countP (isNoTeamIdWarn sid) = (if sid ∈ stx.noId then 1 else 0))
    ?_ hb (by simp)
  intro s0 a s0' _ hstep hp
  cases hls : lookupSeason d a with
  | none =>
    rw [seasonStep_eq_none hls] at hstep
    cases hstep
    exact hp
  | some teams =>
    rw [seasonStep_eq_some hls] at hstep
    exact foldE_pres
      (fun stx => stx.events.countP (isNoTeamIdWarn sid) = (if sid ∈ stx.noId then 1 else 0))
      (fun s1 g s1' _ hg hp1 => groupStep_warncount hg hp1) hstep hp

theorem build_records_mapped {d : SeasonsData} {map : TeamIdMap} {st : BuildState}
    (hb : build_conference_history d map = .ok st) :
    ∀ r ∈ st.records, ∃ sid', lookupMap map sid' = some r.team_id := by
  have h := foldE_records (fun r => ∃ sid', lookupMap map sid' = some r.team_id)
    seasonsDesc ⟨[], [], []⟩ st ?_ hb
  · obtain ⟨rs, hr, hq⟩ := h
    intro r hrr
    rw [hr] at hrr
    exact hq r (by simpa using hrr)
  · intro s0 a s0' _ hstep
    obtain ⟨rs, hr, hq⟩ := seasonStep_ok_records hstep
    exact ⟨rs, hr, fun r hrr => (hq r hrr).2.1⟩

theorem foldl_nat_min_ge {b : Nat} :
    ∀ (l : List Nat) (a : Nat), b ≤ a → (∀ x ∈ l, b ≤ x) → b ≤ l.foldl Nat.min a := by
  intro l
  induction l with
  | nil => intro a ha _; exact ha
  | cons x rest ih =>
    intro a ha hl
    rw [List.foldl_cons]
    exact ih (Nat.min a x)
      (le_min ha (hl x (List.mem_cons_self _ _)))
      (fun y hy => hl y (List.mem_cons_of_mem _ hy))

theorem foldl_nat_max_le {b : Nat} :
    ∀ (l : List Nat) (a : Nat), a ≤ b → (∀ x ∈ l, x ≤ b) → l.foldl Nat.max a ≤ b := by
  intro l
  induction l with
  | nil => intro a ha _; exact ha
  | cons x rest ih =>
    intro a ha hl
    rw [List.foldl_cons]
    exact ih (Nat.max a x)
      (max_le ha (hl x (List.mem_cons_self _ _)))
      (fun y hy => hl y (List.mem_cons_of_mem _ hy))

theorem firstSeason_ge_1925 {d : SeasonsData} {sid : String}
    (hap : seasonsAppeared d sid ≠ []) : 1925 ≤ firstSeason d sid := by
  cases hapc : seasonsAppeared d sid with
  | nil => exact absurd hapc hap
  | cons a rest =>
    rw [firstSeason_eq hapc]
    refine foldl_nat_min_ge rest a ?_ ?_
    · exact (mem_seasonsAppeared.mp (hapc ▸ List.mem_cons_self a rest)).2.1
    · intro x hx
      exact (mem_seasonsAppeared.mp (hapc ▸ List.mem_cons_of_mem a hx)).2.1

theorem lastSeason_le_2025 {d : SeasonsData} {sid : String}
    (hap : seasonsAppeared d sid ≠ []) : lastSeason d sid ≤ 2025 := by
  cases hapc : seasonsAppeared d sid with
  | nil => exact absurd hapc hap
  | cons a rest =>
    rw [lastSeason_eq hapc]
    refine foldl_nat_max_le rest a ?_ ?_
    · exact (mem_seasonsAppeared.mp (hapc ▸ List.mem_cons_self a rest)).2.2
    · intro x hx
      exact (mem_seasonsAppeared.mp (hapc ▸ List.mem_cons_of_mem a hx)).2.2

/-! ### The claims -/

/-- C1 counterexample: in the degenerate scenario team "T" is mapped, both
passes run to completion, season 2024 lies in the inclusive range
[first appearance, last appearance] — and yet ends with zero history
records, because the duplicate entries of 2024 all match the eventual
conference, so the resolver skips the season and the gap filler does not
revisit it (the team appeared in 2024). -/
theorem c1_exactly_one_counterexample :
    lookupMap mapDegen "T" = some 1 ∧
    exceptOkB (build_conference_history dDegen mapDegen) = true ∧
    firstSeason dDegen "T" = 2024 ∧ lastSeason dDegen "T" = 2025 ∧
    countKey (fill_gap_years dDegen mapDegen (applyInserts [] stDegen.records)) 1 2024 = 0 := by
  decide

/-- C1 (amended): for a mapped team (non-falsy team_id, well-formed mapping),
after a successful resolution pass followed by the gap filler, every season
in the inclusive range [first appearance, last appearance] holds exactly one
history record for `(team_id, season)` — except the degenerate seasons the
resolver skips with a warning (duplicate entries all equal to the found
eventual conference), which hold none. -/
theorem c1_exactly_one_amended
    (d : SeasonsData) (map : TeamIdMap) (st : BuildState) (sid : String) (tid : Nat)
    (s : Nat)
    (hb : build_conference_history d map = .ok st)
    (hwf : mapWF map = true)
    (hm : lookupMap map sid = some tid) (htid : tid ≠ 0) (hsid : sid ≠ "")
    (hap : seasonsAppeared d sid ≠ [])
    (h1 : firstSeason d sid ≤ s) (h2 : s ≤ lastSeason d sid)
    (hdeg : degenerateSkipB d sid s = false) :
    countKey (fill_gap_years d map (applyInserts [] st.records)) tid s = 1 := by
  have hamo : AtMostOne (fill_gap_years d map (applyInserts [] st.records)) :=
    fill_pres_amo (applyInserts_pres_amo amo_nil)
  refine countKey_eq_one ?_ hamo
  have hlo : 1925 ≤ s := le_trans (firstSeason_ge_1925 hap) h1
  have hhi : s ≤ 2025 := le_trans h2 (lastSeason_le_2025 hap)
  by_cases happ : appearsIn d sid s = true
  · have hne := appearsIn_iff_entriesOf.mp happ
    have hfilterne : st.records.filter (keyMatch tid s) ≠ [] := by
      cases hsh : entriesOf d s sid with
      | nil => exact absurd hsh hne
      | cons t1 rest1 =>
        cases rest1 with
        | nil =>
          rw [build_filter_single hb hwf hm htid hsid hlo hhi hsh]
          simp
        | cons t2 ts =>
          have hlen : 2 ≤ (entriesOf d s sid).length := by rw [hsh]; simp
          cases hfe : find_eventual_conference sid s d with
          | none =>
            obtain ⟨c, _, hfil, _⟩ :=
              build_filter_fallback hb hwf hm htid hsid hlo hhi hlen hfe
            rw [hfil]
            simp
          | some ev =>
            have hcor : ((entriesOf d s sid).map (fun t => t.conferenceId)).filter
                (fun c => decide (c ≠ some ev)) ≠ [] := by
              intro hc
              rw [degenerateSkipB] at hdeg
              rw [hfe] at hdeg
              simp only [hc, List.isEmpty_nil, Bool.and_eq_false_iff] at hdeg
              rcases hdeg with hdeg | hdeg
              · rw [decide_eq_false_iff_not] at hdeg
                exact hdeg hlen
              · cases hdeg
            rw [build_filter_differs hb hwf hm htid hsid hlo hhi hlen hfe hcor]
            intro hc
            exact hcor (List.map_eq_nil_iff.mp hc)
    have hkey1 : hasKey (applyInserts [] st.records) tid s = true := by
      rw [hasKey_applyInserts]
      have hk := hasKey_iff_filter_ne.mpr hfilterne
      rw [hasKey] at hk
      rw [hk]
      simp
    exact hasKey_fill_mono hkey1
  · have happf : appearsIn d sid s = false := eq_false_of_ne_true happ
    exact fill_hasKey (mem_idToSource hwf (lookupMap_mem hm)) hap h1 h2
      (contains_seasonsAppeared_false happf)

/-- C1 witness: the gap scenario ("W" appears in 2020 and 2022) has exactly
one record for the gap season 2021 after both passes. -/
theorem c1_exactly_one_amended_witness :
    countKey (fill_gap_years dGap mapGap (applyInserts [] stGap.records)) 7 2021 = 1 :=
  c1_exactly_one_amended dGap mapGap stGap "W" 7 2021 (by decide) (by decide) (by decide)
    (by decide) (by decide) (by decide) (by decide) (by decide) (by decide)

/-- Counting one emitted record among the mapped-and-filtered attempts equals
counting its conference value among the reported values. -/
theorem count_mk_filter {tid s : Nat} {ev : Int} {c : Option Int} (hc : c ≠ some ev) :
    ∀ confs : List (Option Int),
    ((confs.filter (fun c' => decide (c' ≠ some ev))).map
      (fun c' => (⟨tid, s, c', true⟩ : HistoryRecord))).count ⟨tid, s, c, true⟩ =
      confs.count c := by
  intro confs
  induction confs with
  | nil => rfl
  | cons a rest ih =>
    rw [List.filter_cons]
    by_cases ha : a = some ev
    · have hpa : (decide (a ≠ some ev)) = false := by simp [ha]
      have hca : c ≠ a := by rw [ha]; exact hc
      rw [hpa]
      simp only [Bool.false_eq_true, if_false]
      have hac : ¬ a = c := fun hc' => hca hc'.symm
      rw [ih, List.count_cons]
      simp [hca, hac]
    · have hpa : (decide (a ≠ some ev)) = true := by simp [ha]
      rw [hpa]
      simp only [if_true, List.map_cons, List.count_cons, ih]
      by_cases hca : c = a
      · subst hca
        simp
      · have hac : ¬ a = c := fun hc' => hca hc'.symm
        simp [hca, hac, HistoryRecord.mk.injEq]

/-- Shared for C2: under a found eventual conference, the insert attempts
keyed `(tid, s)` are exactly one record per reported value that differs from
it (also when none differ, in which case there are none). -/
theorem build_filter_eventual {d : SeasonsData} {map : TeamIdMap} {st : BuildState}
    {sid : String} {tid : Nat} {s : Nat} {ev : Int}
    (hb : build_conference_history d map = .ok st)
    (hwf : mapWF map = true)
    (hm : lookupMap map sid = some tid) (htid : tid ≠ 0) (hsid : sid ≠ "")
    (hlo : 1925 ≤ s) (hhi : s ≤ 2025)
    (hlen : 2 ≤ (entriesOf d s sid).length)
    (hfe : find_eventual_conference sid s d = some ev) :
    st.records.filter (keyMatch tid s) =
      (((entriesOf d s sid).map (fun t => t.conferenceId)).filter
        (fun c => decide (c ≠ some ev))).map (fun c => ⟨tid, s, c, true⟩) := by
  by_cases hcor : ((entriesOf d s sid).map (fun t => t.conferenceId)).filter
      (fun c => decide (c ≠ some ev)) = []
  · rw [hcor, List.map_nil]
    exact (build_filter_allmatch hb hwf hm htid hsid hlo hhi hlen hfe hcor).1
  · exact build_filter_differs hb hwf hm htid hsid hlo hhi hlen hfe hcor

/-- C2 (confirmed): for a team with several reported conferences in a season
whose forward scan finds the eventual conference `ev`, the resolver's insert
attempts for `(team_id, season)` carry no record equal to `ev`, and for every
other value they carry exactly one record per reported occurrence of that
value. -/
theorem c2_duplicates_emit_differers
    (d : SeasonsData) (map : TeamIdMap) (st : BuildState) (sid : String) (tid : Nat)
    (s : Nat) (ev : Int)
    (hb : build_conference_history d map = .ok st)
    (hwf : mapWF map = true)
    (hm : lookupMap map sid = some tid) (htid : tid ≠ 0) (hsid : sid ≠ "")
    (hlo : 1925 ≤ s) (hhi : s ≤ 2025)
    (hlen : 2 ≤ (entriesOf d s sid).length)
    (hfe : find_eventual_conference sid s d = some ev) :
    (∀ r ∈ st.records, r.team_id = tid → r.season = s →
      r.conference_id ≠ some ev ∧ r.existed = true) ∧
    (∀ c : Option Int, c ≠ some ev →
      st.records.count ⟨tid, s, c, true⟩ =
        ((entriesOf d s sid).map (fun t => t.conferenceId)).count c) := by
  have hchar := build_filter_eventual hb hwf hm htid hsid hlo hhi hlen hfe
  constructor
  · intro r hr h1 h2
    have hkm : keyMatch tid s r = true := by rw [keyMatch]; exact decide_eq_true ⟨h1, h2⟩
    have hrm : r ∈ st.records.filter (keyMatch tid s) := List.mem_filter.mpr ⟨hr, hkm⟩
    rw [hchar] at hrm
    obtain ⟨c, hc, hcr⟩ := List.mem_map.mp hrm
    obtain ⟨_, hcne⟩ := List.mem_filter.mp hc
    subst hcr
    exact ⟨of_decide_eq_true hcne, rfl⟩
  · intro c hc
    have h1 : st.records.count ⟨tid, s, c, true⟩ =
        (st.records.filter (keyMatch tid s)).count ⟨tid, s, c, true⟩ :=
      (List.count_filter (by rw [keyMatch]; exact decide_eq_true ⟨rfl, rfl⟩)).symm
    rw [h1, hchar]
    exact count_mk_filter hc _

/-- C2 witness: in the duplicate scenario, team "X" reports conferences 1 and
2 in 2024 and the eventual conference is 2; the attempts carry conference 1
with the same multiplicity as reported. -/
theorem c2_duplicates_emit_differers_witness :
    stDup.records.count ⟨4, 2024, some 1, true⟩ =
      ((entriesOf dDup 2024 "X").map (fun t => t.conferenceId)).count (some 1) :=
  (c2_duplicates_emit_differers dDup mapDup stDup "X" 4 2024 2 (by decide) (by decide)
    (by decide) (by decide) (by decide) (by decide) (by decide) (by decide)
    (by decide)).2 (some 1) (by decide)

/-- C3 counterexample: team "T" is duplicated in 2023; the first future
season in which it reports exactly one conference is 2025 (conference 7), and
it does not disappear from the data (2024 has data, 2025 lists it) — yet the
scan returns no eventual conference, because the team is merely absent from
the 2024 snapshot. -/
theorem c3_forward_scan_counterexample :
    (entriesOf dScan 2023 "T").length = 2 ∧
    lookupSeason dScan 2024 ≠ none ∧
    (entriesOf dScan 2024 "T").length = 0 ∧
    (entriesOf dScan 2025 "T").map (fun t => t.conferenceId) = [some 7] ∧
    find_eventual_conference "T" 2023 dScan = none := by
  decide

/-- C3 (amended): the forward scan equals the following characterization:
among the future seasons (`season + 1` to 2025) present in the collected
data, find the first one in which the team has at most one entry; return
that entry's conferenceId when the team has exactly one entry there, and
nothing when it has none there (absence from that one snapshot, not
necessarily from all data) or when every future season with data reports the
team multiple times. -/
theorem c3_forward_scan_amended (sid : String) (start_season : Nat) (d : SeasonsData) :
    find_eventual_conference sid start_season d = findEventualSpec sid start_season d :=
  findEventualGo_spec sid d (futureRange start_season)

/-- C4 (confirmed): a team with exactly one reported conference entry in a
season gets exactly one insert attempt for `(team_id, season)`, carrying the
reported conferenceId and `existed = true`. -/
theorem c4_single_report
    (d : SeasonsData) (map : TeamIdMap) (st : BuildState) (sid : String) (tid : Nat)
    (s : Nat) (t : TeamEntry)
    (hb : build_conference_history d map = .ok st)
    (hwf : mapWF map = true)
    (hm : lookupMap map sid = some tid) (htid : tid ≠ 0) (hsid : sid ≠ "")
    (hlo : 1925 ≤ s) (hhi : s ≤ 2025)
    (hone : entriesOf d s sid = [t]) :
    st.records.countP (keyMatch tid s) = 1 ∧
    ∀ r ∈ st.records, keyMatch tid s r = true →
      r.conference_id = t.conferenceId ∧ r.existed = true := by
  have hchar := build_filter_single hb hwf hm htid hsid hlo hhi hone
  constructor
  · rw [List.countP_eq_length_filter, hchar]
    rfl
  · intro r hr hkm
    have hrm : r ∈ st.records.filter (keyMatch tid s) := List.mem_filter.mpr ⟨hr, hkm⟩
    rw [hchar, List.mem_singleton] at hrm
    subst hrm
    exact ⟨rfl, rfl⟩

/-- C4 witness: in the duplicate scenario, team "X" has the single entry
(conference 2) in 2025 and gets exactly one attempt for `(4, 2025)`. -/
theorem c4_single_report_witness : stDup.records.countP (keyMatch 4 2025) = 1 :=
  (c4_single_report dDup mapDup stDup "X" 4 2025 ⟨some "X", some 2⟩ (by decide) (by decide)
    (by decide) (by decide) (by decide) (by decide) (by decide) (by decide)).1

/-- C5 counterexample: team "S" reports a missing (null) conferenceId and
conference 3 in 2025 and never stabilizes, so the fallback fires — but
instead of emitting a record with the smallest reported value, the pass
aborts: Python's sort of `[None, 3]` raises an uncaught TypeError. -/
theorem c5_fallback_counterexample :
    (entriesOf dSortCrash 2025 "S").length = 2 ∧
    find_eventual_conference "S" 2025 dSortCrash = none ∧
    lookupMap mapSortCrash "S" = some 2 ∧
    build_conference_history dSortCrash mapSortCrash =
      .error "TypeError: '<' not supported between instances of 'NoneType' and 'int'" := by
  decide

/-- C5 (amended): when every duplicate reported conferenceId is present
(non-null) and no eventual conference is found, the resolver emits exactly
one record for `(team_id, season)`, carrying the numerically smallest
reported value, with `existed = true`, and logs the low-confidence warning;
when a reported value is null, the pass instead aborts with an uncaught
error (see the counterexample). -/
theorem c5_fallback_smallest_amended
    (d : SeasonsData) (map : TeamIdMap) (st : BuildState) (sid : String) (tid : Nat)
    (s : Nat)
    (hb : build_conference_history d map = .ok st)
    (hwf : mapWF map = true)
    (hm : lookupMap map sid = some tid) (htid : tid ≠ 0) (hsid : sid ≠ "")
    (hlo : 1925 ≤ s) (hhi : s ≤ 2025)
    (hlen : 2 ≤ (entriesOf d s sid).length)
    (hfe : find_eventual_conference sid s d = none)
    (hall : ∀ c ∈ (entriesOf d s sid).map (fun t => t.conferenceId), c.isSome = true) :
    ∃ m : Int,
      st.records.filter (keyMatch tid s) = [⟨tid, s, some m, true⟩] ∧
      some m ∈ (entriesOf d s sid).map (fun t => t.conferenceId) ∧
      (∀ x : Int, some x ∈ (entriesOf d s sid).map (fun t => t.conferenceId) → m ≤ x) ∧
      LogEvent.warnNoEventual sid s ∈ st.events := by
  obtain ⟨c, hps, hfil, hwarn⟩ := build_filter_fallback hb hwf hm htid hsid hlo hhi hlen hfe
  have hlen2 : 2 ≤ ((entriesOf d s sid).map (fun t => t.conferenceId)).length := by
    rw [List.length_map]
    exact hlen
  obtain ⟨m, hcm, hmem, hmin⟩ := pySortedFirst_min hlen2 hall hps
  subst hcm
  exact ⟨m, hfil, hmem, hmin, hwarn⟩

/-- C5 witness: team "Y" reports conferences 9 and 4 in 2025 with no future
data; the fallback emits the record with conference 4 and logs the warning. -/
theorem c5_fallback_smallest_amended_witness :
    stFall.records.filter (keyMatch 2 2025) = [⟨2, 2025, some 4, true⟩] ∧
    LogEvent.warnNoEventual "Y" 2025 ∈ stFall.events := by
  obtain ⟨m, hfil, hmem, hmin, hwarn⟩ :=
    c5_fallback_smallest_amended dFall mapFall stFall "Y" 2 2025 (by decide) (by decide)
      (by decide) (by decide) (by decide) (by decide) (by decide) (by decide) (by decide)
      (by decide)
  have hm4 : m = 4 := by
    have h9 : m = 9 ∨ m = 4 := by
      have := hmem
      simp [entriesOf, dFall, lookupSeason] at this
      tauto
    have hle : m ≤ 4 := hmin 4 (by decide)
    omega
  subst hm4
  exact ⟨hfil, hwarn⟩

/-- C6 (confirmed): when every duplicate reported conferenceId equals the
eventual conference found by the scan, the resolver emits no record for
`(team_id, season)` and logs the data-quality warning instead of
auto-correcting. -/
theorem c6_allmatch_skips
    (d : SeasonsData) (map : TeamIdMap) (st : BuildState) (sid : String) (tid : Nat)
    (s : Nat) (ev : Int)
    (hb : build_conference_history d map = .ok st)
    (hwf : mapWF map = true)
    (hm : lookupMap map sid = some tid) (htid : tid ≠ 0) (hsid : sid ≠ "")
    (hlo : 1925 ≤ s) (hhi : s ≤ 2025)
    (hlen : 2 ≤ (entriesOf d s sid).length)
    (hfe : find_eventual_conference sid s d = some ev)
    (hcor : ((entriesOf d s sid).map (fun t => t.conferenceId)).filter
      (fun c => decide (c ≠ some ev)) = []) :
    st.records.countP (keyMatch tid s) = 0 ∧ LogEvent.warnAllMatch sid s ∈ st.events := by
  obtain ⟨hfil, hwarn⟩ := build_filter_allmatch hb hwf hm htid hsid hlo hhi hlen hfe hcor
  refine ⟨?_, hwarn⟩
  rw [List.countP_eq_length_filter, hfil]
  rfl

/-- C6 witness: the degenerate scenario emits nothing for `(1, 2024)` and
logs the all-match warning. -/
theorem c6_allmatch_skips_witness :
    stDegen.records.countP (keyMatch 1 2024) = 0 ∧
    LogEvent.warnAllMatch "T" 2024 ∈ stDegen.events :=
  c6_allmatch_skips dDegen mapDegen stDegen "T" 1 2024 5 (by decide) (by decide) (by decide)
    (by decide) (by decide) (by decide) (by decide) (by decide) (by decide) (by decide)

/-- C7 counterexample: in the degenerate scenario, season 2024 lies in
team "T"'s range and has no existing history record after the resolution
pass, yet the gap filler inserts nothing (the team appeared in 2024), so it
does not fill "exactly those seasons in the range with no existing record". -/
theorem c7_gap_filler_counterexample :
    firstSeason dDegen "T" = 2024 ∧ lastSeason dDegen "T" = 2025 ∧
    hasKey (applyInserts [] stDegen.records) 1 2024 = false ∧
    fill_gap_years dDegen mapDegen (applyInserts [] stDegen.records) =
      applyInserts [] stDegen.records := by
  decide

/-- C7 (amended): the gap filler only appends; every appended record is an
`existed = false`, null-conference placeholder for a key that had no record;
for a mapped team the appended records with its team_id sit exactly in the
seasons of [first appearance, last appearance] in which the team does not
appear in any snapshot, and after the pass every such season holds a record.
(Seasons in which the team appeared are never touched, even when they have
no record — see the counterexample.) -/
theorem c7_gap_filler_amended
    (d : SeasonsData) (map : TeamIdMap) (db : List HistoryRecord)
    (sid : String) (tid : Nat)
    (hwf : mapWF map = true) (hmem : (sid, tid) ∈ map) :
    ∃ added, fill_gap_years d map db = db ++ added ∧
      (∀ r ∈ added, r.existed = false ∧ r.conference_id = none ∧
        hasKey db r.team_id r.season = false) ∧
      (∀ r ∈ added, r.team_id = tid →
        appearsIn d sid r.season = false ∧
        firstSeason d sid ≤ r.season ∧ r.season ≤ lastSeason d sid) ∧
      (∀ s : Nat, firstSeason d sid ≤ s → s ≤ lastSeason d sid →
        seasonsAppeared d sid ≠ [] → appearsIn d sid s = false →
        hasKey (fill_gap_years d map db) tid s = true) := by
  obtain ⟨A, hA, hq⟩ := fill_pairs_spec d (idToSource map) db
  have hfg : fill_gap_years d map db = db ++ A := hA
  refine ⟨A, hfg, ?_, ?_, ?_⟩
  · intro r hr
    obtain ⟨q1, q2, _, q4⟩ := hq r hr
    exact ⟨q2, q1, q4⟩
  · intro r hr htid
    obtain ⟨_, _, ⟨sid', hpair, q3, q4, q5, q6⟩, _⟩ := hq r hr
    have hmap' : (sid', r.team_id) ∈ map := idToSource_sub _ hpair
    have hvn : (map.map Prod.snd).Nodup :=
      of_decide_eq_true ((Bool.and_eq_true _ _).mp hwf).2
    have hsid' : sid' = sid := values_inj hvn (htid ▸ hmap') hmem
    rw [hsid'] at q3 q4 q5 q6
    refine ⟨?_, q4, q5⟩
    by_cases happ : appearsIn d sid r.season = true
    · exfalso
      have hlo : 1925 ≤ r.season := le_trans (firstSeason_ge_1925 q6) q4
      have hhi : r.season ≤ 2025 := le_trans q5 (lastSeason_le_2025 q6)
      have hin : r.season ∈ seasonsAppeared d sid :=
        mem_seasonsAppeared.mpr ⟨happ, hlo, hhi⟩
      rw [show (seasonsAppeared d sid).contains r.season = true by
        simp [List.elem_eq_mem, hin]] at q3
      cases q3
    · exact eq_false_of_ne_true happ
  · intro s h1 h2 hap happ
    exact fill_hasKey (mem_idToSource hwf hmem) hap h1 h2
      (contains_seasonsAppeared_false happ)

/-- C7 witness: in the gap scenario the filler appends exactly the 2021
placeholder for team 7 and leaves the record present afterwards. -/
theorem c7_gap_filler_amended_witness :
    fill_gap_years dGap mapGap dbGap = dbGap ++ [⟨7, 2021, none, false⟩] ∧
    hasKey (fill_gap_years dGap mapGap dbGap) 7 2021 = true := by
  obtain ⟨added, _, _, _, h4⟩ :=
    c7_gap_filler_amended dGap mapGap dbGap "W" 7 (by decide) (by decide)
  exact ⟨by decide, h4 2021 (by decide) (by decide) (by decide) (by decide)⟩

/-- C8 counterexample: with a fetch oracle that succeeds for every season
(startup connectivity is fine), the run still aborts after startup: the 2025
data holds duplicate entries for team "S" whose reported conference ids
include a null, the forward scan finds no eventual conference, and the
fallback sort raises an uncaught TypeError that propagates out of the
resolution pass. -/
theorem c8_nonfatal_counterexample :
    seasonRange.all (fun s => exceptOkB (fetchCrash s)) = true ∧
    exceptOkB (runImport fetchCrash mapSortCrash) = false := by
  decide

/-- C8 (amended): per-season fetch failures and per-record insert rejections
are not fatal — whenever every successfully fetched entry carries a non-null
conferenceId, the post-startup phases (collection, resolution, gap filling)
run to completion for every input, failed seasons included.  Not every
post-startup error is non-fatal, however: a null conferenceId among
unresolved duplicates aborts the run (see the counterexample). -/
theorem c8_nonfatal_amended
    (fetch : Nat → Except String (List TeamEntry)) (map : TeamIdMap)
    (hall : ∀ s ts, fetch s = .ok ts → ∀ t ∈ ts, (t.conferenceId).isSome = true) :
    exceptOkB (runImport fetch map) = true :=
  runImport_ok hall

/-- C8 witness: a run whose 2000 fetch fails but whose data is otherwise
well-formed completes. -/
theorem c8_nonfatal_amended_witness : exceptOkB (runImport fetchFine [("A", 1)]) = true :=
  c8_nonfatal_amended fetchFine [("A", 1)] (fun s ts h t ht => by
    revert h
    unfold fetchFine
    split
    · intro h
      cases h
    · split
      · intro h
        cases h
        simp only [List.mem_cons, List.mem_singleton] at ht
        rcases ht with rfl | rfl | ht
        · rfl
        · rfl
        · simp at ht
      · split
        · intro h
          cases h
          simp only [List.mem_singleton] at ht
          subst ht
          rfl
        · intro h
          cases h
          simp at ht)

/-- C9 (confirmed): a season whose fetch fails is logged, omitted from the
collected data, fetched exactly once (never retried), and every other
season's collected data is untouched (successful non-empty fetches are all
kept), so the run continues over the remaining seasons. -/
theorem c9_fetch_failure_skipped
    (fetch : Nat → Except String (List TeamEntry)) (s : Nat) (e : String)
    (hlo : 1925 ≤ s) (hhi : s ≤ 2025) (herr : fetch s = .error e) :
    lookupSeason (collect_all_seasons_data fetch).data s = none ∧
    FetchLog.fetchError s e ∈ (collect_all_seasons_data fetch).logs ∧
    (collect_all_seasons_data fetch).fetched.count s = 1 ∧
    (∀ s' ts', 1925 ≤ s' → s' ≤ 2025 → fetch s' = .ok ts' → ts' ≠ [] →
      lookupSeason (collect_all_seasons_data fetch).data s' = some ts') := by
  refine ⟨?_, collect_logs_mem (mem_seasonRange.mpr ⟨hlo, hhi⟩) herr, ?_, ?_⟩
  · rw [lookup_collect_data hlo hhi]
    simp [herr]
  · rw [collect_fetched]
    exact List.count_eq_one_of_mem nodup_seasonRange (mem_seasonRange.mpr ⟨hlo, hhi⟩)
  · intro s' ts' h1 h2 hok hne
    rw [lookup_collect_data h1 h2]
    simp [hok, List.isEmpty_iff, hne]

/-- C9 witness: the failing 2000 fetch is logged and skipped while the 2024
data is kept. -/
theorem c9_fetch_failure_skipped_witness :
    lookupSeason (collect_all_seasons_data fetchFine).data 2000 = none ∧
    FetchLog.fetchError 2000 "connection reset" ∈ (collect_all_seasons_data fetchFine).logs ∧
    (collect_all_seasons_data fetchFine).fetched.count 2000 = 1 ∧
    lookupSeason (collect_all_seasons_data fetchFine).data 2024 =
      some [⟨some "A", some 10⟩, ⟨some "A", some 20⟩] := by
  obtain ⟨h1, h2, h3, h4⟩ :=
    c9_fetch_failure_skipped fetchFine 2000 "connection reset" (by decide) (by decide)
      (by decide)
  exact ⟨h1, h2, h3, h4 2024 [⟨some "A", some 10⟩, ⟨some "A", some 20⟩] (by decide)
    (by decide) (by decide) (by decide)⟩

/-- C10 (confirmed): across the whole run at most one missing-mapping
warning is logged per source_id, and every record either pass leaves in the
table carries a team_id drawn from the mapping — teams absent from the
mapping receive no records from the resolver or the gap filler. -/
theorem c10_unmapped_teams
    (d : SeasonsData) (map : TeamIdMap) (st : BuildState) (sid : String)
    (hb : build_conference_history d map = .ok st)
    (_hun : lookupMap map sid = none) :
    st.events.countP (isNoTeamIdWarn sid) ≤ 1 ∧
    (∀ r ∈ fill_gap_years d map (applyInserts [] st.records),
      r.team_id ∈ map.map Prod.snd) := by
  constructor
  · rw [build_warncount hb sid]
    split
    · exact le_refl 1
    · exact Nat.zero_le 1
  · intro r hr
    obtain ⟨A, hA, hq⟩ := fill_pairs_spec d (idToSource map) (applyInserts [] st.records)
    have hr' : r ∈ applyInserts [] st.records ++ A := by
      have hfg : fill_gap_years d map (applyInserts [] st.records) =
          applyInserts [] st.records ++ A := hA
      rw [← hfg]
      exact hr
    rcases List.mem_append.mp hr' with h' | h'
    · rcases mem_applyInserts h' with h'' | h''
      · simp at h''
      · obtain ⟨sid', hlk⟩ := build_records_mapped hb r h''
        exact List.mem_map.mpr ⟨(sid', r.team_id), lookupMap_mem hlk, rfl⟩
    · obtain ⟨_, _, ⟨sid', hpair, _⟩, _⟩ := hq r h'
      exact List.mem_map.mpr ⟨(sid', r.team_id), idToSource_sub _ hpair, rfl⟩

/-- C10 witness: source_id "Z" appears in two seasons without a mapping;
one warning is logged in total, and the surviving record for team 9 ("A")
has its team_id in the mapping. -/
theorem c10_unmapped_teams_witness :
    stUnmapped.events.countP (isNoTeamIdWarn "Z") ≤ 1 ∧
    (⟨9, 2025, some 2, true⟩ : HistoryRecord).team_id ∈ mapUnmapped.map Prod.snd := by
  obtain ⟨h1, h2⟩ :=
    c10_unmapped_teams dUnmapped mapUnmapped stUnmapped "Z" (by decide) (by decide)
  exact ⟨h1, h2 ⟨9, 2025, some 2, true⟩ (by decide)⟩

end StatGuy
